import Mathlib

/-!
Verification development for the gitlab-settings-enforcer repository.

The Go sources under `pkg/gitlab/project_manager.go`, `pkg/config` and `cmd`
are shallowly embedded below.  External collaborators (the REST client
transport, the JSON round-trip used by the convert helpers, the reflection
library, the regular-expression engine and the structural-diff library) are
modelled as explicit environment parameters; everything written in the
repository itself is translated function by function.  Remote API calls are
recorded in an explicit trace so that statements about which calls a code
path issues can be proved.
-/

set_option autoImplicit false
set_option maxRecDepth 8000

namespace GitlabEnforcer

/-- Outcome of running a Go function: normal return, a returned error value,
or a runtime panic (for example a nil-pointer dereference). -/
inductive GoOutcome where
  | ok
  | err (msg : String)
  | panics
  deriving DecidableEq, Repr

/-- Result of a Go function together with a value, mirroring a
`(value, error)` pair plus the possibility of a panic. -/
inductive GoRes (α : Type) where
  | ok (a : α)
  | err (msg : String)
  | panics
  deriving DecidableEq, Repr

/-- A GitLab project as returned by the API: numeric id, namespaced path and
an abstract payload standing for the remaining settings fields, which the
manager never inspects itself (it only passes them to the external diff and
reflection libraries). -/
structure Project where
  id : Nat
  pathWithNamespace : String
  payload : Nat
  deriving DecidableEq, Repr

/-- A merge-request approval settings snapshot (`gitlab.ProjectApprovals`);
its fields are only inspected through the external diff and reflection
libraries, so the content is abstracted into one payload. -/
structure ProjectApprovals where
  payload : Nat
  deriving DecidableEq, Repr

/-- A subgroup entry returned by the subgroup-listing endpoint. -/
structure Subgroup where
  id : Nat
  path : String
  deriving DecidableEq, Repr

/-- One page of a paginated project listing, with the pagination fields the
code reads from the response (`resp.TotalPages`, `resp.NextPage`). -/
structure ProjectsPage where
  projects : List Project
  totalPages : Nat
  nextPage : Nat
  deriving DecidableEq, Repr

/-- An HTTP response as far as the code inspects it (the status code). -/
structure APIResponse where
  statusCode : Nat
  deriving DecidableEq, Repr

/-- Every remote API call the embedded code can issue, recorded in traces. -/
inductive APICall where
  | getGroup (name : String)
  | listSubgroups (groupInfo : String)
  | listGroupProjects (groupID : Nat) (page : Nat)
  | getProtectedBranch (projectID : Nat) (name : String)
  | unprotectBranch (projectID : Nat) (name : String)
  | protectBranch (projectID : Nat) (name : String) (push merge : Nat)
  | getProtectedTag (projectID : Nat) (name : String)
  | unprotectTag (projectID : Nat) (name : String)
  | protectTag (projectID : Nat) (name : String) (create : Nat)
  | getBranch (projectID : Nat) (name : String)
  | createBranch (projectID : Nat) (name : String)
  | getProject (projectID : Nat)
  | editProject (projectID : Nat)
  | getApprovalConfiguration (projectID : Nat)
  | changeApprovalConfiguration (projectID : Nat)
  deriving DecidableEq, Repr

/-- Whether a call mutates remote state (protect/unprotect, create branch,
edit project, change approval configuration); all other calls are reads. -/
def APICall.isMutating : APICall → Bool
  | .unprotectBranch _ _ => true
  | .protectBranch _ _ _ _ => true
  | .unprotectTag _ _ => true
  | .protectTag _ _ _ => true
  | .createBranch _ _ => true
  | .editProject _ => true
  | .changeApprovalConfiguration _ => true
  | _ => false

/-- Whether a call is a read (fetch) of remote state. -/
def APICall.isFetch (c : APICall) : Bool := !c.isMutating

/-!
### Config model (`pkg/config`, `src/unnamed/part_000`)
-/

/-- The numeric permission constants of the go-gitlab client used by
`AccessLevel.Value`: none = 0, developer = 30, maintainer = 40. -/
def noPermissions : Nat := 0

def developerPermissions : Nat := 30

def maintainerPermissions : Nat := 40

/-- String alias used in the config for the developer role. -/
def AccessLevelDeveloper : String := "developer"

/-- String alias used in the config for the maintainer role. -/
def AccessLevelMaintainer : String := "maintainer"

/-- Embedding of `config.AccessLevel.Value`: maps the string alias to the
numeric access-level constant, defaulting to no permissions. -/
def accessLevelValue (a : String) : Nat :=
  if a = AccessLevelDeveloper then developerPermissions
  else if a = AccessLevelMaintainer then maintainerPermissions
  else noPermissions

/-- Embedding of `config.ProtectedBranch`. -/
structure ProtectedBranch where
  name : String
  pushAccessLevel : String
  mergeAccessLevel : String
  deriving DecidableEq, Repr

/-- Embedding of `config.ProtectedTag`. -/
structure ProtectedTag where
  name : String
  createAccessLevel : String
  deriving DecidableEq, Repr

/-- Embedding of `gitlab.EditProjectOptions` as used by the code: the
default-branch field is read explicitly by `ensureDefaultBranch`; the rest of
the patch is only handed to external marshalling, abstracted into a payload. -/
structure EditProjectOptions where
  defaultBranch : Option String
  payload : Nat
  deriving DecidableEq, Repr

/-- Embedding of `gitlab.ChangeApprovalConfigurationOptions`; only handed to
external marshalling, abstracted into a payload. -/
structure ChangeApprovalConfigurationOptions where
  payload : Nat
  deriving DecidableEq, Repr

/-- Embedding of `config.EmailConfig`. -/
structure EmailConfig where
  fromAddr : String
  port : Nat
  server : String
  recipients : List String
  deriving DecidableEq, Repr

/-- Embedding of `config.ComplianceSettings`: email parameters plus the
mandatory subsection/setting/expected-value table, as an association list
(Go map) of subsection name to an association list of setting name to the
expected value (rendered as a string). -/
structure ComplianceSettings where
  email : EmailConfig
  mandatory : List (String × List (String × String))
  deriving DecidableEq, Repr

/-- Embedding of `config.Config`. -/
structure Config where
  groupName : String
  includeSubgroups : Bool
  createDefaultBranch : Bool
  error : Bool
  projectBlacklist : List String
  projectWhitelist : List String
  protectedBranches : List ProtectedBranch
  protectedTags : List ProtectedTag
  approvalSettings : Option ChangeApprovalConfigurationOptions
  projectSettings : Option EditProjectOptions
  compliance : Option ComplianceSettings
  deriving DecidableEq, Repr

/-!
### Substring containment (`pkg/internal/stringslice`)
-/

/-- Embedding of the Go standard-library `strings.Split` for a
single-character separator: worker walking the character list with an
accumulator for the current field. -/
def splitOnCharAux (sep : Char) : List Char → List Char → List (List Char)
  | [], acc => [acc.reverse]
  | c :: rest, acc =>
    if c = sep then acc.reverse :: splitOnCharAux sep rest []
    else splitOnCharAux sep rest (c :: acc)

/-- Embedding of `strings.Split(s, sep)` for a single-character separator:
the list of fields between occurrences of the separator (one empty field for
the empty string, as in Go). -/
def goSplit (s : String) (sep : Char) : List String :=
  (splitOnCharAux sep s.data []).map String.mk

/-- Embedding of `strings.ContainsAny(s, set)` for a one-character set. -/
def goContainsChar (s : String) (c : Char) : Bool :=
  s.data.contains c

/-- Embedding of `strings.Replace(s, ".", "%2E", -1)`: replace every dot by
the three characters of its percent-encoding. -/
def goReplaceDot (s : String) : String :=
  String.mk ((s.data.map (fun c => if c = '.' then ['%', '2', 'E'] else [c])).flatten)

/-- Containment of one string in another as a substring (the semantics of
the Go standard-library `strings.Contains`): true iff some suffix of `s`
obtained by dropping `i` characters starts with `sub`. -/
def strContains (s sub : String) : Bool :=
  (List.range (s.data.length + 1)).any (fun i => sub.data.isPrefixOf (s.data.drop i))

/-- Modelled from the spec: the package `pkg/internal/stringslice` is not in
the provided sources, only its caller `GetProjects` is.  Per spec section 4.2
the filter uses substring-or-fragment containment semantics: true iff the
string contains at least one list entry as a substring. -/
def stringsliceContains (s : String) (list : List String) : Bool :=
  list.any (fun entry => strContains s entry)

/-!
### Remote environment

The REST client and the other external collaborators are modelled as a bundle
of response functions.  A fixed environment models a fixed remote state.
-/

/-- Fixed remote state plus external library behaviour, as response
functions.  `Except`-valued functions model the `(value, error)` returns of
the go-gitlab client; `matchString` models `regexp.MatchString` applied to a
pattern and a candidate string; `pathEscape` models `url.PathEscape`. -/
structure Env where
  getGroup : String → Except String Nat
  listSubgroups : String → Except String (List Subgroup)
  listGroupProjects : Nat → Nat → Except String ProjectsPage
  matchString : String → String → Bool
  pathEscape : String → String

/-!
### Group resolver (`GetSubgroupID`, project_manager.go lines 592-631)

The Go function recurses with `indent+1` while `indent != pathCount`; the
recursion is embedded with a structural fuel that the wrapper instantiates
with `parts.length - indent`, which is exactly the depth the Go recursion
reaches: when `indent` is out of range of the split path the Go code panics
on the slice index, matching the fuel-0 case.
-/

/-- Recursive worker of `GetSubgroupID`.  Returns the Go `(int, error)` pair
(with panics made explicit) and the trace of subgroup-listing calls.  On a
listing failure it returns `(0, err)`; the caller of a recursive invocation
discards the error component (`subgroup_ID, _ = m.GetSubgroupID(...)`),
keeping only the integer. -/
def getSubgroupIDAux (env : Env) (path : String) :
    Nat → Nat → Nat → Nat × GoOutcome × List APICall
  | 0, _, _ => (0, .panics, [])
  | fuel+1, indent, group_ID =>
    let parts := goSplit path '/'
    let subpath := parts.getD indent ""
    let pathCount := parts.length - 1
    let group_info := if group_ID == 0 then parts.headD "" else toString group_ID
    match env.listSubgroups group_info with
    | .error _ =>
      (0, .err ("failed to fetch GitLab subgroups for " ++ path),
        [APICall.listSubgroups group_info])
    | .ok subgroups =>
      let subgroup_ID := subgroups.foldl
        (fun acc g => if env.matchString ("^" ++ subpath ++ "$") g.path then g.id else acc) 0
      if indent = pathCount then
        (subgroup_ID, .ok, [APICall.listSubgroups group_info])
      else
        match getSubgroupIDAux env path fuel (indent+1) subgroup_ID with
        | (v, .panics, calls) => (v, .panics, APICall.listSubgroups group_info :: calls)
        | (v, _, calls) => (v, .ok, APICall.listSubgroups group_info :: calls)

/-- Embedding of `ProjectManager.GetSubgroupID`: walks the slash-separated
path, listing subgroups of the current group at each level and selecting the
subgroup whose path matches the anchored pattern built from the next
segment; the last match wins.  Returns the resolved id, the Go outcome and
the trace of API calls. -/
def GetSubgroupID (env : Env) (path : String) (indent group_ID : Nat) :
    Nat × GoOutcome × List APICall :=
  getSubgroupIDAux env path ((goSplit path '/').length - indent) indent group_ID

/-- An environment whose regular-expression matcher implements the anchored
exact match the code builds (pattern `^seg$` matches exactly the string
`seg`), for use in concrete scenarios without regex metacharacters. -/
def exactMatch (pattern s : String) : Bool :=
  pattern == "^" ++ s ++ "$"

/-!
### Project lister (`GetProjects`, project_manager.go lines 509-570)
-/

/-- Embedding of the per-project filter inside the `GetProjects` page loop:
skip a project when the whitelist is non-empty and does not hit the
namespaced path, or when the blacklist hits the namespaced path. -/
def keepProject (cfg : Config) (p : Project) : Bool :=
  if cfg.projectWhitelist.length > 0 &&
      !(stringsliceContains p.pathWithNamespace cfg.projectWhitelist) then false
  else if stringsliceContains p.pathWithNamespace cfg.projectBlacklist then false
  else true

/-- Modelled from the spec: the package-level `listGroupProjectOps`
initializer (`vars.go`) is not in the provided sources; per spec section 4.2
listing is paginated at a fixed page size starting from the first page.  The
`Page` field of this shared options value is the state threaded through
`getProjectsLoop` below; the mutation `listGroupProjectOps.Page = resp.NextPage`
is in the provided sources and is embedded there. -/
def listGroupProjectOpsPageInit : Nat := 1

/-- The paginated fetch loop of `GetProjects`.  The state `page` is the
`Page` field of the package-level `listGroupProjectOps` options value, which
the loop mutates in place; the final value of that field is returned so that
a later call observes it.  The loop breaks when the current page number
reaches the reported total page count (or the total is one page); `fuel`
bounds the number of iterations of the unbounded Go `for` loop. -/
def getProjectsLoop (env : Env) (cfg : Config) (groupID : Nat) :
    Nat → Nat → List Project → GoRes (List Project) × Nat × List APICall
  | 0, page, _ => (.err "loop fuel exhausted", page, [])
  | fuel+1, page, repos =>
    match env.listGroupProjects groupID page with
    | .error _ =>
      (.err ("failed to fetch GitLab projects for " ++ cfg.groupName), page,
        [APICall.listGroupProjects groupID page])
    | .ok resp =>
      let repos2 := repos ++ resp.projects.filter (keepProject cfg)
      if page ≥ resp.totalPages || resp.totalPages == 1 then
        (.ok repos2, page, [APICall.listGroupProjects groupID page])
      else
        match getProjectsLoop env cfg groupID fuel resp.nextPage repos2 with
        | (r, page2, calls) => (r, page2, APICall.listGroupProjects groupID page :: calls)

/-- Embedding of `ProjectManager.GetProjects`: resolves the configured group
path to a numeric group id (directly for a single-segment path, through
`GetSubgroupID` when the path contains a slash), then pages through the
group project listing applying the whitelist/blacklist filter.  Takes and
returns the `Page` field of the shared `listGroupProjectOps` value. -/
def GetProjects (env : Env) (cfg : Config) (fuel opsPage : Nat) :
    GoRes (List Project) × Nat × List APICall :=
  if goContainsChar cfg.groupName '/' then
    match GetSubgroupID env cfg.groupName 1 0 with
    | (_, .err _, calls) =>
      (.err ("failed to fetch GitLab group info for " ++ cfg.groupName), opsPage, calls)
    | (_, .panics, calls) => (.panics, opsPage, calls)
    | (groupID, .ok, calls) =>
      match getProjectsLoop env cfg groupID fuel opsPage [] with
      | (r, page2, calls2) => (r, page2, calls ++ calls2)
  else
    let groupName := (goReplaceDot (env.pathEscape cfg.groupName))
    match env.getGroup groupName with
    | .error _ =>
      (.err ("failed to fetch GitLab group info for " ++ groupName), opsPage,
        [APICall.getGroup groupName])
    | .ok groupID =>
      match getProjectsLoop env cfg groupID fuel opsPage [] with
      | (r, page2, calls2) => (r, page2, APICall.getGroup groupName :: calls2)

/-!
### Branch and tag protection reconciler
(`EnsureBranchesAndProtection`, `EnsureTagsProtection`, `ensureDefaultBranch`)
-/

/-- One access-level entry of a protection description
(`gitlab.BranchAccessDescription`). -/
structure BranchAccessDescription where
  accessLevel : Nat
  deriving DecidableEq, Repr

/-- Current protection state of a branch as fetched from the API
(`gitlab.ProtectedBranch`). -/
structure GoProtectedBranch where
  pushAccessLevels : List BranchAccessDescription
  mergeAccessLevels : List BranchAccessDescription
  deriving DecidableEq, Repr

/-- Current protection state of a tag as fetched from the API
(`gitlab.ProtectedTag`). -/
structure GoProtectedTag where
  createAccessLevels : List BranchAccessDescription
  deriving DecidableEq, Repr

/-- Result of a mutating call that returns `(response, error)`: success, or
an error carrying the response (which is nil on transport failure). -/
inductive MutRes where
  | ok
  | err (resp : Option APIResponse)
  deriving DecidableEq, Repr

/-- Remote environment for the protection reconciler and the settings
reconciler.  Fetches return `(pointer, error)` pairs: `Except`-error for a
non-nil error, an inner `Option` for a possibly-nil pointer.  `getBranch`
returns the response on error so the caller can check the status code.
`convert...` model the JSON marshal/unmarshal round trip of the two convert
helpers; `diff...` model the external structural-diff library, returning the
change types of the diff entries. -/
structure ReconcilerEnv where
  getProtectedBranch : Nat → String → Except String (Option GoProtectedBranch)
  unprotectBranch : Nat → String → MutRes
  protectBranch : Nat → String → Option String
  getProtectedTag : Nat → String → Except String (Option GoProtectedTag)
  unprotectTag : Nat → String → MutRes
  protectTag : Nat → String → Option String
  getBranch : Nat → String → Except (Option APIResponse) Unit
  createBranch : Nat → String → Option String
  getProject : Nat → Except String Project
  editProject : Nat → EditProjectOptions → Except String Project
  getApprovalConfiguration : Nat → Except String ProjectApprovals
  changeApprovalConfiguration :
    Nat → ChangeApprovalConfigurationOptions → Except String ProjectApprovals
  convertEditProjectOptionsToProject : EditProjectOptions → Except String Project
  convertChangeApprovalConfigurationOptionsToProjectApprovals :
    ChangeApprovalConfigurationOptions → Except String ProjectApprovals
  diffProject : Project → Project → List String
  diffApprovals : ProjectApprovals → ProjectApprovals → List String

/-- Embedding of `compareAccessLevels` (project_manager.go lines 128-130):
the fetched axis matches the declared rule iff it has exactly one entry whose
level equals the numeric value of the declared role. -/
def compareAccessLevels (branchLevel : List BranchAccessDescription)
    (configLevel : String) : Bool :=
  branchLevel.length == 1 &&
    (branchLevel.headD ⟨0⟩).accessLevel == accessLevelValue configLevel

/-- The condition under which the loop body of `EnsureBranchesAndProtection`
skips a rule (`continue`): the fetch succeeded, the returned pointer is
non-nil, and both the merge and the push axis match the declared rule. -/
def branchProtectionMatches (fetch : Except String (Option GoProtectedBranch))
    (b : ProtectedBranch) : Bool :=
  match fetch with
  | .ok (some pb) =>
    compareAccessLevels pb.mergeAccessLevels b.mergeAccessLevel &&
      compareAccessLevels pb.pushAccessLevels b.pushAccessLevel
  | _ => false

/-- One iteration of the rule loop of `EnsureBranchesAndProtection`: fetch
the current protection (a failed fetch is only logged); skip the rule when
the current state matches; in dry-run log and skip the mutations; otherwise
unprotect (tolerating a 404 response) and re-protect with the declared
levels.  Returns the early-return error of the enclosing function, if any,
and the calls issued for this rule. -/
def processBranchRule (env : ReconcilerEnv) (projectID : Nat) (dryrun : Bool)
    (b : ProtectedBranch) : Option String × List APICall :=
  let fetchCall := APICall.getProtectedBranch projectID b.name
  if branchProtectionMatches (env.getProtectedBranch projectID b.name) b then
    (none, [fetchCall])
  else if dryrun then
    (none, [fetchCall])
  else
    let protectStep : Option String × List APICall :=
      let protCall := APICall.protectBranch projectID b.name
        (accessLevelValue b.pushAccessLevel) (accessLevelValue b.mergeAccessLevel)
      match env.protectBranch projectID b.name with
      | some _ => (some ("failed to protect branch " ++ b.name),
          [fetchCall, APICall.unprotectBranch projectID b.name, protCall])
      | none => (none, [fetchCall, APICall.unprotectBranch projectID b.name, protCall])
    match env.unprotectBranch projectID b.name with
    | .ok => protectStep
    | .err resp =>
      if resp.map APIResponse.statusCode = some 404 then protectStep
      else (some ("failed to unprotect branch " ++ b.name ++ " before protection"),
        [fetchCall, APICall.unprotectBranch projectID b.name])

/-- The rule loop of `EnsureBranchesAndProtection`: process the declared
rules in order, returning early on the first rule whose mutation fails. -/
def ensureBranchesLoop (env : ReconcilerEnv) (projectID : Nat) (dryrun : Bool) :
    List ProtectedBranch → Option String × List APICall
  | [] => (none, [])
  | b :: rest =>
    match processBranchRule env projectID dryrun b with
    | (some e, calls) => (some e, calls)
    | (none, calls) =>
      match ensureBranchesLoop env projectID dryrun rest with
      | (r, calls2) => (r, calls ++ calls2)

/-- Embedding of `ensureDefaultBranch` (project_manager.go lines 914-952).
The Go guard reads `m.config.ProjectSettings.DefaultBranch` after only
checking `CreateDefaultBranch`, so a nil `ProjectSettings` with the flag set
is a nil-pointer dereference, embedded as the panic outcome. -/
def ensureDefaultBranch (env : ReconcilerEnv) (cfg : Config) (project : Project)
    (dryrun : Bool) : GoRes Unit × List APICall :=
  if !cfg.createDefaultBranch then (.ok (), [])
  else
    match cfg.projectSettings with
    | none => (.panics, [])
    | some ps =>
      match ps.defaultBranch with
      | none => (.ok (), [])
      | some branch =>
        if branch = "master" then (.ok (), [])
        else
          let checkCall := APICall.getBranch project.id branch
          match env.getBranch project.id branch with
          | .ok _ => (.ok (), [checkCall])
          | .error resp =>
            match resp with
            | none =>
              (.err "failed to check for default branch existence, got nil response",
                [checkCall])
            | some r =>
              if r.statusCode ≠ 404 then
                (.err "failed to check for default branch existence, got unexpected response status code",
                  [checkCall])
              else if dryrun then (.ok (), [checkCall])
              else
                match env.createBranch project.id branch with
                | some _ => (.err ("failed to create default branch " ++ branch),
                    [checkCall, APICall.createBranch project.id branch])
                | none => (.ok (), [checkCall, APICall.createBranch project.id branch])

/-- Embedding of `ProjectManager.EnsureBranchesAndProtection` (lines 84-126):
ensure the default branch exists, then reconcile every declared
protected-branch rule. -/
def EnsureBranchesAndProtection (env : ReconcilerEnv) (cfg : Config)
    (project : Project) (dryrun : Bool) : GoRes Unit × List APICall :=
  match ensureDefaultBranch env cfg project dryrun with
  | (.ok _, calls) =>
    match ensureBranchesLoop env project.id dryrun cfg.protectedBranches with
    | (none, calls2) => (.ok (), calls ++ calls2)
    | (some e, calls2) => (.err e, calls ++ calls2)
  | (.err e, calls) => (.err e, calls)
  | (.panics, calls) => (.panics, calls)

/-- The condition under which the loop body of `EnsureTagsProtection` skips a
rule: successful fetch, non-nil pointer, exactly one create access-level
entry equal to the declared numeric role value. -/
def tagProtectionMatches (fetch : Except String (Option GoProtectedTag))
    (t : ProtectedTag) : Bool :=
  match fetch with
  | .ok (some pt) =>
    pt.createAccessLevels.length == 1 &&
      (pt.createAccessLevels.headD ⟨0⟩).accessLevel == accessLevelValue t.createAccessLevel
  | _ => false

/-- One iteration of the rule loop of `EnsureTagsProtection`, mirroring the
branch case on the create axis. -/
def processTagRule (env : ReconcilerEnv) (projectID : Nat) (dryrun : Bool)
    (t : ProtectedTag) : Option String × List APICall :=
  let fetchCall := APICall.getProtectedTag projectID t.name
  if tagProtectionMatches (env.getProtectedTag projectID t.name) t then
    (none, [fetchCall])
  else if dryrun then
    (none, [fetchCall])
  else
    let protectStep : Option String × List APICall :=
      let protCall := APICall.protectTag projectID t.name
        (accessLevelValue t.createAccessLevel)
      match env.protectTag projectID t.name with
      | some _ => (some ("failed to protect branch " ++ t.name),
          [fetchCall, APICall.unprotectTag projectID t.name, protCall])
      | none => (none, [fetchCall, APICall.unprotectTag projectID t.name, protCall])
    match env.unprotectTag projectID t.name with
    | .ok => protectStep
    | .err resp =>
      if resp.map APIResponse.statusCode = some 404 then protectStep
      else (some ("failed to unprotect branch " ++ t.name ++ " before protection"),
        [fetchCall, APICall.unprotectTag projectID t.name])

/-- The rule loop of `EnsureTagsProtection`. -/
def ensureTagsLoop (env : ReconcilerEnv) (projectID : Nat) (dryrun : Bool) :
    List ProtectedTag → Option String × List APICall
  | [] => (none, [])
  | t :: rest =>
    match processTagRule env projectID dryrun t with
    | (some e, calls) => (some e, calls)
    | (none, calls) =>
      match ensureTagsLoop env projectID dryrun rest with
      | (r, calls2) => (r, calls ++ calls2)

/-- Embedding of `ProjectManager.EnsureTagsProtection` (lines 132-168). -/
def EnsureTagsProtection (env : ReconcilerEnv) (cfg : Config) (project : Project)
    (dryrun : Bool) : GoRes Unit × List APICall :=
  match ensureTagsLoop env project.id dryrun cfg.protectedTags with
  | (none, calls) => (.ok (), calls)
  | (some e, calls) => (.err e, calls)

/-!
### Snapshot maps and settings reconciler
(`UpdateProjectSettings`, `UpdateProjectApprovalSettings`)

Go maps with pointer values are embedded as association lists with
`Option`-valued entries; looking up a missing key yields the Go zero value,
a nil pointer, i.e. `none`.
-/

/-- Assignment `m[k] = v` on a Go map embedded as an association list:
replace the entry for `k` if present, else append it. -/
def mapInsert {α : Type} (m : List (String × α)) (k : String) (v : α) :
    List (String × α) :=
  match m with
  | [] => [(k, v)]
  | (k2, v2) :: rest =>
    if k2 = k then (k, v) :: rest else (k2, v2) :: mapInsert rest k v

/-- Read `m[k]` on a Go map with pointer values: a missing key yields the
zero value of the pointer type, nil. -/
def mapLookup {α : Type} (m : List (String × Option α)) (k : String) : Option α :=
  match m with
  | [] => none
  | (k2, v2) :: rest => if k2 = k then v2 else mapLookup rest k

/-- The four snapshot maps of `ProjectManager`, created empty at manager
construction and populated during reconciliation. -/
structure ManagerState where
  approvalSettingsOriginal : List (String × Option ProjectApprovals)
  approvalSettingsUpdated : List (String × Option ProjectApprovals)
  projectSettingsOriginal : List (String × Option Project)
  projectSettingsUpdated : List (String × Option Project)
  deriving DecidableEq, Repr

/-- The empty state built by `NewProjectManager`. -/
def ManagerState.initial : ManagerState := ⟨[], [], [], []⟩

/-- Embedding of `willChangeProjectSettings` (lines 971-984): diff the
current settings against the would-be settings and report whether any diff
entry has change type "update".  The loop sets a flag for every update-type
entry, i.e. a fold. -/
def willChangeProjectSettings (env : ReconcilerEnv)
    (current changes : Project) : Bool :=
  (env.diffProject current changes).foldl
    (fun acc ty => if ty = "update" then true else acc) false

/-- Embedding of `willChangeApprovalSettings` (lines 955-968). -/
def willChangeApprovalSettings (env : ReconcilerEnv)
    (current changes : ProjectApprovals) : Bool :=
  (env.diffApprovals current changes).foldl
    (fun acc ty => if ty = "update" then true else acc) false

/-- Embedding of `ProjectManager.UpdateProjectSettings` (lines 765-829):
fetch the current settings as the original snapshot, marshal the declared
patch through the full-settings schema, and only when the structural diff
reports an update-type entry issue the edit call (skipped in dry-run) and
re-fetch; the updated snapshot is recorded in every completed path. -/
def UpdateProjectSettings (env : ReconcilerEnv) (cfg : Config) (st : ManagerState)
    (project : Project) (dryrun : Bool) :
    GoRes Unit × ManagerState × List APICall :=
  match cfg.projectSettings with
  | none => (.ok (), st, [])
  | some patch =>
    let fetchCall := APICall.getProject project.id
    match env.getProject project.id with
    | .error _ =>
      (.err ("failed to get current project settings of project " ++ project.pathWithNamespace),
        st, [fetchCall])
    | .ok projectSettings =>
      let st1 := { st with projectSettingsOriginal :=
        (mapInsert st.projectSettingsOriginal project.pathWithNamespace (some projectSettings)) }
      match env.convertEditProjectOptionsToProject patch with
      | .error e => (.err e, st1, [fetchCall])
      | .ok settingsToChange =>
        if !willChangeProjectSettings env projectSettings settingsToChange then
          (.ok (), { st1 with projectSettingsUpdated :=
            (mapInsert st1.projectSettingsUpdated project.pathWithNamespace
              (some projectSettings)) }, [fetchCall])
        else
          let refetch : ManagerState → List APICall →
              GoRes Unit × ManagerState × List APICall := fun st2 calls =>
            match env.getProject project.id with
            | .error _ =>
              (.err ("failed to get current project settings of project " ++ project.pathWithNamespace),
                st2, calls ++ [fetchCall])
            | .ok newSettings =>
              (.ok (), { st2 with projectSettingsUpdated :=
                (mapInsert st2.projectSettingsUpdated project.pathWithNamespace
                  (some newSettings)) }, calls ++ [fetchCall])
          if dryrun then
            refetch st1 [fetchCall]
          else
            match env.editProject project.id patch with
            | .error _ =>
              (.err ("failed to update project settings of project " ++ project.pathWithNamespace),
                st1, [fetchCall, APICall.editProject project.id])
            | .ok _ => refetch st1 [fetchCall, APICall.editProject project.id]

/-- Embedding of `ProjectManager.UpdateProjectApprovalSettings`
(lines 696-760), mirroring the project-settings case on the approval
configuration endpoints. -/
def UpdateProjectApprovalSettings (env : ReconcilerEnv) (cfg : Config)
    (st : ManagerState) (project : Project) (dryrun : Bool) :
    GoRes Unit × ManagerState × List APICall :=
  match cfg.approvalSettings with
  | none => (.ok (), st, [])
  | some patch =>
    let fetchCall := APICall.getApprovalConfiguration project.id
    match env.getApprovalConfiguration project.id with
    | .error _ =>
      (.err ("failed to get current project settings of project " ++ project.pathWithNamespace),
        st, [fetchCall])
    | .ok approvalSettings =>
      let st1 := { st with approvalSettingsOriginal :=
        (mapInsert st.approvalSettingsOriginal project.pathWithNamespace (some approvalSettings)) }
      match env.convertChangeApprovalConfigurationOptionsToProjectApprovals patch with
      | .error e => (.err e, st1, [fetchCall])
      | .ok settingsToChange =>
        if !willChangeApprovalSettings env approvalSettings settingsToChange then
          (.ok (), { st1 with approvalSettingsUpdated :=
            (mapInsert st1.approvalSettingsUpdated project.pathWithNamespace
              (some approvalSettings)) }, [fetchCall])
        else
          let refetch : ManagerState → List APICall →
              GoRes Unit × ManagerState × List APICall := fun st2 calls =>
            match env.getApprovalConfiguration project.id with
            | .error _ =>
              (.err ("failed to get current project settings of project " ++ project.pathWithNamespace),
                st2, calls ++ [fetchCall])
            | .ok newSettings =>
              (.ok (), { st2 with approvalSettingsUpdated :=
                (mapInsert st2.approvalSettingsUpdated project.pathWithNamespace
                  (some newSettings)) }, calls ++ [fetchCall])
          if dryrun then
            refetch st1 [fetchCall]
          else
            match env.changeApprovalConfiguration project.id patch with
            | .error _ =>
              (.err ("failed to update merge request approval settings or project " ++ project.pathWithNamespace),
                st1, [fetchCall, APICall.changeApprovalConfiguration project.id])
            | .ok _ => refetch st1 [fetchCall, APICall.changeApprovalConfiguration project.id]

/-!
### Compliance report generation
(`GenerateComplianceReport`, `GenerateComplianceEmail`)
-/

/-- The external reflection lookup (`reflect.ValueOf(x).Elem().FieldByName`
composed with `strcase.ToCamel`): given a non-nil settings snapshot and a
snake_case setting name, the rendered value of the corresponding field, or
`none` when the name maps to no field. -/
structure ReflectEnv where
  approvalFieldByName : ProjectApprovals → String → Option String
  projectFieldByName : Project → String → Option String

/-- Byte-wise lexicographic comparison of character lists, as Go compares
strings. -/
def charListLe : List Char → List Char → Bool
  | [], _ => true
  | _ :: _, [] => false
  | c :: cs, d :: ds =>
    if c.toNat < d.toNat then true
    else if d.toNat < c.toNat then false
    else charListLe cs ds

/-- Byte-wise string comparison used by the sort below. -/
def goStringLe (a b : String) : Bool :=
  charListLe a.data b.data

/-- Insert a key into an already sorted list of keys. -/
def insertSorted (x : String) : List String → List String
  | [] => [x]
  | y :: ys => if goStringLe x y then x :: y :: ys else y :: insertSorted x ys

/-- Go sort.Strings on a list of keys: ascending lexicographic order,
implemented as an insertion sort. -/
def sortStrings : List String → List String
  | [] => []
  | x :: xs => insertSorted x (sortStrings xs)

/-- Association-list read with a Go map default for a non-pointer value
type (the empty settings list). -/
def mandatorySettings (comp : ComplianceSettings) (subsection : String) :
    List (String × String) :=
  match comp.mandatory.find? (fun e => e.fst = subsection) with
  | some e => e.snd
  | none => []

/-- One rendered report cell: look the mandatory setting up on the recorded
original snapshot of the named project.  Taking `.Elem()` of a nil pointer
yields the zero `reflect.Value`, on which `FieldByName` panics; a missing
field renders the explicit "NOT VALID SETTING" marker; a subsection other
than the two known ones leaves the value nil. -/
def renderSettingValue (env : ReflectEnv) (st : ManagerState)
    (name subsection setting : String) : GoRes String :=
  if subsection = "approval_settings" then
    match mapLookup st.approvalSettingsOriginal name with
    | none => .panics
    | some a =>
      .ok (match env.approvalFieldByName a setting with
        | some v => v
        | none => "NOT VALID SETTING")
  else if subsection = "project_settings" then
    match mapLookup st.projectSettingsOriginal name with
    | none => .panics
    | some p =>
      .ok (match env.projectFieldByName p setting with
        | some v => v
        | none => "NOT VALID SETTING")
  else .ok "<nil>"

/-- Render one report line: the actual value, annotated with the expected
value in parentheses when the two differ. -/
def renderSettingLine (env : ReflectEnv) (comp : ComplianceSettings)
    (st : ManagerState) (name subsection setting : String) : GoRes String :=
  match renderSettingValue env st name subsection setting with
  | .panics => .panics
  | .err e => .err e
  | .ok v =>
    let expected :=
      match (mandatorySettings comp subsection).find? (fun e => e.fst = setting) with
      | some e => e.snd
      | none => ""
    .ok (name ++ "/" ++ subsection ++ "/" ++ setting ++ "=" ++
      (if v ≠ expected then v ++ " (" ++ expected ++ ")" else v))

/-- Sequence a list of renderings, propagating the first panic or error, as
straight-line Go statements do. -/
def goResCollect {α : Type} (f : α → GoRes (List String)) :
    List α → GoRes (List String)
  | [] => .ok []
  | a :: rest =>
    match f a with
    | .panics => .panics
    | .err e => .err e
    | .ok lines =>
      match goResCollect f rest with
      | .panics => .panics
      | .err e => .err e
      | .ok more => .ok (lines ++ more)

/-- All lines of one project block: subsections in sorted order, settings of
each subsection in sorted order. -/
def renderProjectBlock (env : ReflectEnv) (comp : ComplianceSettings)
    (st : ManagerState) (name : String) : GoRes (List String) :=
  goResCollect
    (fun subsection =>
      goResCollect
        (fun setting => match renderSettingLine env comp st name subsection setting with
          | .panics => .panics
          | .err e => .err e
          | .ok line => .ok [line])
        (sortStrings ((mandatorySettings comp subsection).map Prod.fst)))
    (sortStrings (comp.mandatory.map Prod.fst))

/-- Embedding of `ProjectManager.GenerateComplianceReport` (lines 402-490):
for every project recorded in the project-settings original snapshot map, in
sorted order, render the actual value of every mandatory setting. -/
def GenerateComplianceReport (env : ReflectEnv) (comp : ComplianceSettings)
    (st : ManagerState) : GoRes (List String) :=
  goResCollect (renderProjectBlock env comp st)
    (sortStrings (st.projectSettingsOriginal.map Prod.fst))

/-- Embedding of `ProjectManager.GenerateComplianceEmail` (lines 295-399):
skipped entirely (returning nil) unless sender, server and port are all
configured; otherwise renders the same content as the console report as an
HTML table.  The SMTP delivery itself is an external collaborator. -/
def GenerateComplianceEmail (env : ReflectEnv) (comp : ComplianceSettings)
    (st : ManagerState) : GoRes (List String) :=
  if comp.email.fromAddr = "" || comp.email.server = "" || comp.email.port == 0 then
    .ok []
  else
    goResCollect (renderProjectBlock env comp st)
      (sortStrings (st.projectSettingsOriginal.map Prod.fst))

/-!
### Command loops (`cmd/sync.go`, `cmd/compliance.go` in `src/unnamed/part_001`)
-/

/-- Results of the three per-project operations inside the sync loop, as
observed by the loop body (an error value or success). -/
structure SyncOutcome where
  projectPath : String
  ensureBranches : Option String
  updateSettings : Option String
  updateApprovals : Option String
  deriving DecidableEq, Repr

/-- The body of the sync per-project loop: each failed operation logs and
sets the process-wide error flag (`manager.SetError(true)`), nothing else. -/
def syncProjectStep (o : SyncOutcome) (errFlag : Bool) : Bool :=
  let f1 := if o.ensureBranches.isSome then true else errFlag
  let f2 := if o.updateSettings.isSome then true else f1
  if o.updateApprovals.isSome then true else f2

/-- The sync per-project loop: fold the step over the project list, also
recording which projects were processed. -/
def syncLoop : List SyncOutcome → Bool → Bool × List String
  | [], flag => (flag, [])
  | o :: rest, flag =>
    match syncLoop rest (syncProjectStep o flag) with
    | (finalFlag, names) => (finalFlag, o.projectPath :: names)

/-- Embedding of the tail of the sync command after `GetProjects`
succeeded: run the loop, generate the changelog report (whose embedded
result is a parameter, as the function either returns nil or panics), and
exit non-zero iff the error flag is set.  Returns the exit code and the
processed project paths. -/
def syncCmdRun (outcomes : List SyncOutcome) (changeLogResult : Option String)
    (cfgError : Bool) : Nat × List String :=
  match syncLoop outcomes cfgError with
  | (flag, names) =>
    let flag2 := if changeLogResult.isSome then true else flag
    (if flag2 then 1 else 0, names)

/-- The body of the compliance per-project loop (part_001 lines 42-64): fetch
the approval settings and the project settings; a failed fetch logs, sets the
error flag and leaves the local pointer nil; the (possibly nil) pointers are
recorded in the original snapshot maps unconditionally. -/
def compliancePerProject (env : ReconcilerEnv) (st : ManagerState) (flag : Bool)
    (p : Project) : ManagerState × Bool :=
  let fetchedApprovals : Option ProjectApprovals × Bool :=
    match env.getApprovalConfiguration p.id with
    | .ok a => (some a, flag)
    | .error _ => (none, true)
  let st1 := { st with approvalSettingsOriginal :=
    (mapInsert st.approvalSettingsOriginal p.pathWithNamespace fetchedApprovals.fst) }
  let fetchedSettings : Option Project × Bool :=
    match env.getProject p.id with
    | .ok s => (some s, fetchedApprovals.snd)
    | .error _ => (none, true)
  ({ st1 with projectSettingsOriginal :=
    (mapInsert st1.projectSettingsOriginal p.pathWithNamespace fetchedSettings.fst) },
    fetchedSettings.snd)

/-- The compliance per-project loop, recording processed project paths. -/
def complianceLoop (env : ReconcilerEnv) :
    List Project → ManagerState → Bool → ManagerState × Bool × List String
  | [], st, flag => (st, flag, [])
  | p :: rest, st, flag =>
    match compliancePerProject env st flag p with
    | (st1, flag1) =>
      match complianceLoop env rest st1 flag1 with
      | (st2, flag2, names) => (st2, flag2, p.pathWithNamespace :: names)

/-- Embedding of the tail of the compliance command after `GetProjects`
succeeded: run the fetch loop, then the console report and the email (each
feeding a non-nil error into the flag), and exit non-zero iff the flag is
set.  A panic in either generator aborts the process before the exit check,
embedded as `none` for the exit code. -/
def complianceCmdRun (renv : ReconcilerEnv) (fenv : ReflectEnv)
    (comp : ComplianceSettings) (projects : List Project) (cfgError : Bool) :
    Option Nat × List String :=
  match complianceLoop renv projects ManagerState.initial cfgError with
  | (st, flag, names) =>
    match GenerateComplianceReport fenv comp st with
    | .panics => (none, names)
    | .err _ =>
      match GenerateComplianceEmail fenv comp st with
      | .panics => (none, names)
      | _ => (some 1, names)
    | .ok _ =>
      match GenerateComplianceEmail fenv comp st with
      | .panics => (none, names)
      | .err _ => (some 1, names)
      | .ok _ => (some (if flag then 1 else 0), names)

/-!
### Concrete scenarios

Fixed remote states used to evaluate the embedded code on concrete inputs.
-/

/-- Whether a call is a subgroup-listing lookup. -/
def APICall.isSubgroupListing : APICall → Bool
  | .listSubgroups _ => true
  | _ => false

/-- A project on page one of the listing of the scenario group. -/
def p1 : Project := ⟨1, "g/one", 0⟩

/-- A project on page two of the listing of the scenario group. -/
def p2 : Project := ⟨2, "g/two", 0⟩

/-- A remote with a root group "a" whose only subgroup has path "c": every
subgroup listing succeeds, and no subgroup matches the segment "b". -/
def envC1 : Env where
  getGroup := fun _ => .error "no such group"
  listSubgroups := fun g => if g = "a" then .ok [⟨5, "c"⟩] else .ok []
  listGroupProjects := fun _ _ => .error "no such group"
  matchString := exactMatch
  pathEscape := id

/-- A remote with a single group "g" (id 7) whose project listing has two
pages: page 1 holds `p1`, page 2 holds `p2`. -/
def envC2 : Env where
  getGroup := fun g => if g = "g" then .ok 7 else .error "no such group"
  listSubgroups := fun _ => .error "no such group"
  listGroupProjects := fun gid page =>
    if gid = 7 then
      if page ≤ 1 then .ok ⟨[p1], 2, 2⟩
      else .ok ⟨[p2], 2, 3⟩
    else .error "no such group"
  matchString := exactMatch
  pathEscape := id

/-- A minimal config naming the single-segment group "g" with no filters. -/
def cfgC2 : Config := ⟨"g", false, false, false, [], [], [], [], none, none, none⟩

/-- A remote with a single group "g" (id 7) whose project listing fits in
one page holding `p1` and `p2`. -/
def envOnePage : Env where
  getGroup := fun g => if g = "g" then .ok 7 else .error "no such group"
  listSubgroups := fun _ => .ok []
  listGroupProjects := fun gid _ =>
    if gid = 7 then .ok ⟨[p1, p2], 1, 1⟩ else .error "no such group"
  matchString := exactMatch
  pathEscape := id

/-- A config for the nested path "a/b". -/
def cfg7 : Config := ⟨"a/b", false, false, false, [], [], [], [], none, none, none⟩

/-- A config whitelisting paths containing "one" and blacklisting paths
containing "two". -/
def cfg8 : Config := ⟨"g", false, false, false, ["two"], ["one"], [], [], none, none, none⟩

/-- A reconciler remote on which project 1 has branch "main" protected at
push maintainer / merge developer, branch "dev" protected at push developer /
merge developer, and every mutating call succeeds; settings fetches return
payload 0 and the structural diff reports an update exactly when the
payloads differ. -/
def renvW : ReconcilerEnv where
  getProtectedBranch := fun pid name =>
    if pid = 1 && name = "main" then .ok (some ⟨[⟨40⟩], [⟨30⟩]⟩)
    else if pid = 1 && name = "dev" then .ok (some ⟨[⟨30⟩], [⟨30⟩]⟩)
    else .ok none
  unprotectBranch := fun _ _ => .ok
  protectBranch := fun _ _ => none
  getProtectedTag := fun _ _ => .ok none
  unprotectTag := fun _ _ => .ok
  protectTag := fun _ _ => none
  getBranch := fun _ _ => .error (some ⟨404⟩)
  createBranch := fun _ _ => none
  getProject := fun pid => .ok ⟨pid, "g/one", 0⟩
  editProject := fun _ _ => .ok ⟨0, "", 0⟩
  getApprovalConfiguration := fun _ => .ok ⟨0⟩
  changeApprovalConfiguration := fun _ _ => .ok ⟨0⟩
  convertEditProjectOptionsToProject := fun patch => .ok ⟨0, "", patch.payload⟩
  convertChangeApprovalConfigurationOptionsToProjectApprovals :=
    fun patch => .ok ⟨patch.payload⟩
  diffProject := fun a b => if a.payload = b.payload then [] else ["update"]
  diffApprovals := fun a b => if a.payload = b.payload then [] else ["update"]

/-- A reconciler remote on which every settings fetch fails. -/
def renvFail : ReconcilerEnv :=
  { renvW with
    getProject := fun _ => .error "fetch failed",
    getApprovalConfiguration := fun _ => .error "fetch failed" }

/-- A declared rule the current "main" protection already satisfies. -/
def bMain : ProtectedBranch := ⟨"main", "maintainer", "developer"⟩

/-- A declared rule the current "dev" protection violates (declared push
maintainer, current push developer). -/
def bDev : ProtectedBranch := ⟨"dev", "maintainer", "developer"⟩

/-- A config declaring the two branch rules, one tag rule and both settings
patches with payload 0 (matching the fetched settings). -/
def cfg5 : Config :=
  ⟨"g", false, false, false, [], [], [bMain, bDev], [⟨"v*", "maintainer"⟩],
    some ⟨0⟩, some ⟨some "develop", 0⟩, none⟩

/-- A config declaring settings patches whose would-be objects equal the
fetched settings (payload 0), with no branch or tag rules. -/
def cfg6 : Config :=
  ⟨"g", false, false, false, [], [], [], [], some ⟨0⟩, some ⟨none, 0⟩, none⟩

/-- A config that sets the default-branch-creation flag while leaving the
project_settings section absent. -/
def cfg9 : Config :=
  ⟨"g", false, true, false, [], [], [bMain], [], none, none, none⟩

/-- A reflection environment exposing a single field named "x" on both
settings objects. -/
def fenvW : ReflectEnv where
  approvalFieldByName := fun a s => if s = "x" then some (toString a.payload) else none
  projectFieldByName := fun p s => if s = "x" then some (toString p.payload) else none

/-- A compliance section mandating the setting "x" of the approval
subsection, with email delivery fully configured. -/
def comp10 : ComplianceSettings :=
  ⟨⟨"from@example.org", 25, "smtp.example.org", ["to@example.org"]⟩,
    [("approval_settings", [("x", "true")])]⟩

/-- A compliance section with no mandatory settings and no email
configuration. -/
def compEmpty : ComplianceSettings := ⟨⟨"", 0, "", []⟩, []⟩

/-- A manager state recording, for the path of `p1`, a nil approval-settings
snapshot and a non-nil project-settings snapshot, as the compliance command
leaves behind after a failed approval fetch. -/
def st10 : ManagerState :=
  ⟨[("g/one", none)], [], [("g/one", some p1)], []⟩

/-- A compliance section mandating the setting "x" of the project
subsection, with email delivery fully configured. -/
def comp10p : ComplianceSettings :=
  ⟨⟨"from@example.org", 25, "smtp.example.org", ["to@example.org"]⟩,
    [("project_settings", [("x", "true")])]⟩

/-- A manager state recording, for the path of `p1`, a nil project-settings
snapshot under its key, as the compliance command leaves behind after a
failed project-settings fetch. -/
def st10p : ManagerState :=
  ⟨[], [], [("g/one", none)], []⟩

/-!
## Theorems
-/

/-- Reading back the key just written into a Go map. -/
theorem mapLookup_mapInsert_self {α : Type} (m : List (String × Option α))
    (k : String) (v : Option α) : mapLookup (mapInsert m k v) k = v := by
  induction m with
  | nil => simp [mapInsert, mapLookup]
  | cons e rest ih =>
    by_cases h : e.fst = k
    · simp [mapInsert, mapLookup, h]
    · simp [mapInsert, mapLookup, h, ih]

/-- A fold that only raises a flag on an update entry stays false when the
list has no update entry. -/
theorem foldl_update_flag_false (l : List String) (h : ∀ ty ∈ l, ty ≠ "update") :
    l.foldl (fun acc ty => if ty = "update" then true else acc) false = false := by
  induction l with
  | nil => rfl
  | cons a rest ih =>
    have ha : a ≠ "update" := h a (List.mem_cons_self a rest)
    simp only [List.foldl_cons, if_neg ha]
    exact ih (fun ty hty => h ty (List.mem_cons_of_mem a hty))

/-- The subgroup selection fold returns the initial id when no listed
subgroup matches. -/
theorem foldl_select_none (env : Env) (pat : String) (l : List Subgroup)
    (h : ∀ g ∈ l, env.matchString pat g.path = false) :
    l.foldl (fun acc g => if env.matchString pat g.path then g.id else acc) 0 = 0 := by
  induction l with
  | nil => rfl
  | cons g rest ih =>
    have hg : env.matchString pat g.path = false := h g (List.mem_cons_self g rest)
    simp only [List.foldl_cons, hg, Bool.false_eq_true, if_false]
    exact ih (fun x hx => h x (List.mem_cons_of_mem g hx))

/-- Behaviour of the resolver worker when every subgroup-listing call
succeeds and the walk starts in range: it returns outcome ok, issues exactly
`fuel` subgroup-listing calls, and issues nothing else. -/
theorem getSubgroupIDAux_spec (env : Env) (path : String)
    (hok : ∀ g msg, env.listSubgroups g ≠ .error msg) :
    ∀ fuel indent group_ID, fuel = (goSplit path '/').length - indent → 0 < fuel →
      (getSubgroupIDAux env path fuel indent group_ID).2.1 = GoOutcome.ok ∧
      (getSubgroupIDAux env path fuel indent group_ID).2.2.length = fuel ∧
      ∀ c ∈ (getSubgroupIDAux env path fuel indent group_ID).2.2,
        c.isSubgroupListing = true := by
  intro fuel
  induction fuel with
  | zero => intro indent gid _ hpos; omega
  | succ f ih =>
    intro indent gid hfe hpos
    have hin : indent < (goSplit path '/').length := by omega
    simp only [getSubgroupIDAux]
    cases hE : env.listSubgroups
        (if gid == 0 then (goSplit path '/').headD "" else toString gid) with
    | error msg => exact absurd hE (hok _ msg)
    | ok subgroups =>
      by_cases hi : indent = (goSplit path '/').length - 1
      · have hf0 : f = 0 := by omega
        subst hf0
        simp [hi, APICall.isSubgroupListing]
      · have hrec := ih (indent + 1)
          ((subgroups.foldl (fun acc g =>
            if env.matchString ("^" ++ (goSplit path '/').getD indent "" ++ "$") g.path
            then g.id else acc) 0))
          (by omega) (by omega)
        simp only [hi, if_false, ite_false]
        cases hR : getSubgroupIDAux env path f (indent + 1)
            ((subgroups.foldl (fun acc g =>
              if env.matchString ("^" ++ (goSplit path '/').getD indent "" ++ "$") g.path
              then g.id else acc) 0)) with
        | mk v rest =>
          obtain ⟨out, calls⟩ := rest
          rw [hR] at hrec
          obtain ⟨hout, hlen, hall⟩ := hrec
          simp only at hout hlen hall
          subst hout
          simp only [APICall.isSubgroupListing, List.length_cons, List.mem_cons]
          refine ⟨by trivial, by omega, ?_⟩
          intro c hc
          rcases hc with hc | hc
          · subst hc; rfl
          · exact hall c hc

/-- Value of the resolver worker at the final path segment when no listed
subgroup matches: the selection fold keeps the initial id 0. -/
theorem getSubgroupIDAux_last (env : Env) (path : String) (f indent gid : Nat)
    (hi : indent = (goSplit path '/').length - 1) (l : List Subgroup)
    (hl : env.listSubgroups
      (if gid == 0 then (goSplit path '/').headD "" else toString gid) = .ok l)
    (hnone : ∀ g ∈ l,
      env.matchString ("^" ++ (goSplit path '/').getD indent "" ++ "$") g.path = false) :
    (getSubgroupIDAux env path (f+1) indent gid).1 = 0 := by
  simp only [getSubgroupIDAux, hl]
  rw [if_pos hi]
  exact foldl_select_none env _ l hnone

/-- C1: the claim asserts that resolution fails with an error whenever a
path segment has zero subgroup matches.  Counterexample: on a remote whose
root group "a" lists only a subgroup with path "c", resolving the
two-segment path "a/b" finds no match for the segment "b", yet
`GetSubgroupID` returns group id 0 with a nil error instead of failing. -/
theorem claim1_zero_match_counterexample :
    (goSplit "a/b" '/').length = 2 ∧
    envC1.listSubgroups "a" = .ok [⟨5, "c"⟩] ∧
    (∀ g ∈ [Subgroup.mk 5 "c"], envC1.matchString ("^" ++ "b" ++ "$") g.path = false) ∧
    GetSubgroupID envC1 "a/b" 1 0 = (0, GoOutcome.ok, [APICall.listSubgroups "a"]) := by
  refine ⟨by decide, rfl, by decide, by decide⟩

/-- C1 as amended: resolution never returns an error because of zero or
ambiguous matches.  When every subgroup-listing call succeeds and the walk
starts at an in-range segment, `GetSubgroupID` returns a nil error
regardless of how many subgroups match; at the final level a segment with
zero matches silently resolves to group id 0 (and among several matches the
last one wins, per the fold).  Errors arise only from failed listing calls,
and even those are discarded for recursive invocations. -/
theorem claim1_amended (env : Env) (path : String) (indent group_ID : Nat)
    (hok : ∀ g msg, env.listSubgroups g ≠ .error msg)
    (hin : indent < (goSplit path '/').length) :
    (GetSubgroupID env path indent group_ID).2.1 = GoOutcome.ok ∧
    (indent = (goSplit path '/').length - 1 →
      ∀ l, env.listSubgroups
          (if group_ID == 0 then (goSplit path '/').headD "" else toString group_ID) =
          .ok l →
        (∀ g ∈ l,
          env.matchString ("^" ++ (goSplit path '/').getD indent "" ++ "$") g.path = false) →
        (GetSubgroupID env path indent group_ID).1 = 0) := by
  constructor
  · exact (getSubgroupIDAux_spec env path hok _ indent group_ID rfl (by omega)).1
  · intro hlast l hl hnone
    have hfuel : (goSplit path '/').length - indent = 1 := by omega
    unfold GetSubgroupID
    rw [hfuel]
    exact getSubgroupIDAux_last env path 0 indent group_ID hlast l hl hnone

/-- C1 amended witness: on the concrete remote `envC1` the amended claim
evaluates as stated for the path "a/b". -/
theorem claim1_amended_witness :
    (GetSubgroupID envC1 "a/b" 1 0).2.1 = GoOutcome.ok ∧
    (GetSubgroupID envC1 "a/b" 1 0).1 = 0 := by
  have hok : ∀ g msg, envC1.listSubgroups g ≠ .error msg := by
    intro g msg
    simp only [envC1]
    split <;> simp
  have h := claim1_amended envC1 "a/b" 1 0 hok (by decide)
  exact ⟨h.1, h.2 (by decide) [⟨5, "c"⟩] rfl (by decide)⟩

/-- The paginated project-listing loop issues only project-listing calls,
never a subgroup-listing lookup. -/
theorem getProjectsLoop_no_subgroup_calls (env : Env) (cfg : Config) (gid : Nat) :
    ∀ fuel page repos, ∀ c ∈ (getProjectsLoop env cfg gid fuel page repos).2.2,
      c.isSubgroupListing = false := by
  intro fuel
  induction fuel with
  | zero => intro page repos c hc; simp [getProjectsLoop] at hc
  | succ f ih =>
    intro page repos c
    simp only [getProjectsLoop]
    cases hE : env.listGroupProjects gid page with
    | error msg =>
      dsimp only
      intro hc
      simp only [List.mem_singleton] at hc
      subst hc; rfl
    | ok resp =>
      dsimp only
      split
      · intro hc
        simp only [List.mem_singleton] at hc
        subst hc; rfl
      · intro hc
        rcases List.mem_cons.mp hc with hc | hc
        · subst hc; rfl
        · exact ih resp.nextPage _ c hc

/-- C7: resolving an N-segment group path performs exactly N-1 subgroup
lookups.  A single-segment path (no slash) is looked up directly as a group
and `GetProjects` issues zero subgroup-listing calls; a path with N > 1
segments makes `GetSubgroupID` issue exactly N-1 subgroup-listing calls
(when the listing calls succeed, since a failed call cuts the walk short). -/
theorem claim7_subgroup_lookup_count (env : Env) (cfg : Config) (fuel page : Nat) :
    (goContainsChar cfg.groupName '/' = false →
      ((GetProjects env cfg fuel page).2.2.filter APICall.isSubgroupListing) = []) ∧
    (goContainsChar cfg.groupName '/' = true →
      2 ≤ (goSplit cfg.groupName '/').length →
      (∀ g msg, env.listSubgroups g ≠ .error msg) →
      ((GetProjects env cfg fuel page).2.2.filter APICall.isSubgroupListing).length =
        (goSplit cfg.groupName '/').length - 1) := by
  constructor
  · intro hno
    unfold GetProjects
    rw [hno]
    simp only [Bool.false_eq_true, if_false]
    cases hG : env.getGroup (goReplaceDot (env.pathEscape cfg.groupName)) with
    | error msg =>
      simp [List.filter_eq_nil_iff, APICall.isSubgroupListing]
    | ok gid =>
      dsimp only
      rw [List.filter_eq_nil_iff]
      intro c hc
      rcases List.mem_cons.mp hc with hc | hc
      · subst hc; simp [APICall.isSubgroupListing]
      · simp [getProjectsLoop_no_subgroup_calls env cfg gid fuel page [] c hc]
  · intro hyes hlen hok
    unfold GetProjects GetSubgroupID
    rw [hyes]
    simp only [if_true]
    have hspec := getSubgroupIDAux_spec env cfg.groupName hok
      ((goSplit cfg.groupName '/').length - 1) 1 0 rfl (by omega)
    cases hG : getSubgroupIDAux env cfg.groupName
        ((goSplit cfg.groupName '/').length - 1) 1 0 with
    | mk v rest =>
      obtain ⟨out, calls⟩ := rest
      rw [hG] at hspec
      obtain ⟨hout, hcallsLen, hcallsAll⟩ := hspec
      simp only at hout hcallsLen hcallsAll
      subst hout
      dsimp only
      have h1 : calls.filter APICall.isSubgroupListing = calls :=
        List.filter_eq_self.mpr hcallsAll
      have h2 : (getProjectsLoop env cfg v fuel page []).2.2.filter
          APICall.isSubgroupListing = [] := by
        rw [List.filter_eq_nil_iff]
        intro c hc
        simp [getProjectsLoop_no_subgroup_calls env cfg v fuel page [] c hc]
      rw [List.filter_append, h1, h2, List.append_nil, hcallsLen]

/-- C2: the claim asserts `GetProjects` is idempotent for a fixed remote
state.  Counterexample: the `Page` field of the package-level
`listGroupProjectOps` options value is mutated by the loop and never reset,
so on the two-page remote `envC2` the first call returns both projects while
an immediately following second call starts at the leftover cursor (page 2)
and returns only the last page. -/
theorem claim2_pagination_counterexample :
    (GetProjects envC2 cfgC2 10 listGroupProjectOpsPageInit).1 = .ok [p1, p2] ∧
    (GetProjects envC2 cfgC2 10
      ((GetProjects envC2 cfgC2 10 listGroupProjectOpsPageInit).2.1)).1 = .ok [p2] := by
  exact ⟨by decide, by decide⟩

/-- The listing loop leaves the shared page cursor unchanged when every
successful response reports a single page. -/
theorem getProjectsLoop_page_stable (env : Env) (cfg : Config) (gid : Nat)
    (h : ∀ p resp, env.listGroupProjects gid p = .ok resp → resp.totalPages = 1) :
    ∀ fuel page repos, (getProjectsLoop env cfg gid fuel page repos).2.1 = page := by
  intro fuel
  cases fuel with
  | zero => intro page repos; rfl
  | succ f =>
    intro page repos
    simp only [getProjectsLoop]
    cases hE : env.listGroupProjects gid page with
    | error msg => rfl
    | ok resp =>
      have h1 := h page resp hE
      dsimp only
      rw [if_pos (by simp [h1])]

/-- C2 as amended: `GetProjects` is idempotent for a fixed remote state only
when the listing reports a single page: then the shared page cursor is left
unchanged and a second call repeats the first exactly.  In general the
cursor persists across calls (as the counterexample shows). -/
theorem claim2_amended (env : Env) (cfg : Config) (fuel page : Nat)
    (h : ∀ g p resp, env.listGroupProjects g p = .ok resp → resp.totalPages = 1) :
    (GetProjects env cfg fuel page).2.1 = page ∧
    GetProjects env cfg fuel ((GetProjects env cfg fuel page).2.1) =
      GetProjects env cfg fuel page := by
  have hst : (GetProjects env cfg fuel page).2.1 = page := by
    unfold GetProjects
    split
    · cases hG : GetSubgroupID env cfg.groupName 1 0 with
      | mk v rest =>
        obtain ⟨out, calls⟩ := rest
        cases out with
        | ok =>
          dsimp only
          exact getProjectsLoop_page_stable env cfg v (fun p resp => h v p resp) fuel page []
        | err msg => rfl
        | panics => rfl
    · dsimp only
      cases hG : env.getGroup (goReplaceDot (env.pathEscape cfg.groupName)) with
      | error msg => rfl
      | ok gid =>
        dsimp only
        exact getProjectsLoop_page_stable env cfg gid (fun p resp => h gid p resp) fuel page []
  exact ⟨hst, by rw [hst]⟩

/-- C2 amended witness: on the one-page remote `envOnePage` two successive
calls coincide and the cursor is restored. -/
theorem claim2_amended_witness :
    (GetProjects envOnePage cfgC2 10 listGroupProjectOpsPageInit).2.1 =
      listGroupProjectOpsPageInit ∧
    GetProjects envOnePage cfgC2 10
        ((GetProjects envOnePage cfgC2 10 listGroupProjectOpsPageInit).2.1) =
      GetProjects envOnePage cfgC2 10 listGroupProjectOpsPageInit := by
  have h : ∀ g p resp, envOnePage.listGroupProjects g p = .ok resp →
      resp.totalPages = 1 := by
    intro g p resp hresp
    simp only [envOnePage] at hresp
    split at hresp
    · simp only [Except.ok.injEq] at hresp
      rw [← hresp]
    · cases hresp
  exact claim2_amended envOnePage cfgC2 10 listGroupProjectOpsPageInit h

/-- C7 witness: on the concrete remotes, the single-segment config "g"
issues zero subgroup lookups and the two-segment config "a/b" issues exactly
one. -/
theorem claim7_witness :
    ((GetProjects envC2 cfgC2 10 1).2.2.filter APICall.isSubgroupListing) = [] ∧
    ((GetProjects envC1 cfg7 10 1).2.2.filter APICall.isSubgroupListing).length = 1 := by
  have hok : ∀ g msg, envC1.listSubgroups g ≠ .error msg := by
    intro g msg
    simp only [envC1]
    split <;> simp
  refine ⟨(claim7_subgroup_lookup_count envC2 cfgC2 10 1).1 (by decide), ?_⟩
  have h := (claim7_subgroup_lookup_count envC1 cfg7 10 1).2 (by decide) (by decide) hok
  rw [h]
  decide

/-- C8: a fetched project is kept iff the whitelist is empty or some
whitelist entry occurs in the namespaced path as a substring, and no
blacklist entry occurs in it.  The second part ties the predicate to
`GetProjects`: a fetched single-page listing is kept exactly filtered by
that predicate. -/
theorem claim8_filter_semantics :
    (∀ (cfg : Config) (p : Project),
      keepProject cfg p = true ↔
        ((cfg.projectWhitelist = [] ∨
            ∃ e ∈ cfg.projectWhitelist, strContains p.pathWithNamespace e = true) ∧
          ∀ e ∈ cfg.projectBlacklist, strContains p.pathWithNamespace e = false)) ∧
    (∀ (env : Env) (cfg : Config) (gid fuel page : Nat) (resp : ProjectsPage),
      env.listGroupProjects gid page = .ok resp →
      resp.totalPages = 1 →
      (getProjectsLoop env cfg gid (fuel+1) page []).1 =
        .ok (resp.projects.filter (keepProject cfg))) := by
  constructor
  · intro cfg p
    simp only [keepProject, stringsliceContains]
    constructor
    · intro hkeep
      split_ifs at hkeep with h1 h2
      rw [Bool.and_eq_true, Bool.not_eq_true'] at h1
      push_neg at h1
      constructor
      · by_cases hw : cfg.projectWhitelist.length > 0
        · right
          have := h1 (by simpa using hw)
          rcases List.any_eq_true.mp (by simpa using this) with ⟨e, he, hee⟩
          exact ⟨e, he, hee⟩
        · left
          have : cfg.projectWhitelist.length = 0 := by omega
          exact List.length_eq_zero.mp this
      · intro e he
        by_contra hcon
        rw [Bool.not_eq_false] at hcon
        exact h2 (List.any_eq_true.mpr ⟨e, he, hcon⟩)
    · intro ⟨hw, hb⟩
      have hbl : cfg.projectBlacklist.any (fun e => strContains p.pathWithNamespace e) = false := by
        rw [Bool.eq_false_iff]
        intro hany
        rcases List.any_eq_true.mp hany with ⟨e, he, hee⟩
        rw [hb e he] at hee
        cases hee
      have hwl : ¬(cfg.projectWhitelist.length > 0 &&
          !cfg.projectWhitelist.any (fun e => strContains p.pathWithNamespace e)) = true := by
        rw [Bool.and_eq_true, Bool.not_eq_true']
        rintro ⟨hlen, hnone⟩
        rcases hw with hw | ⟨e, he, hee⟩
        · rw [hw] at hlen
          simp at hlen
        · rw [List.any_eq_true.mpr ⟨e, he, hee⟩] at hnone
          cases hnone
      rw [if_neg hwl, if_neg (by simp [hbl])]
  · intro env cfg gid fuel page resp hresp htot
    simp only [getProjectsLoop, hresp]
    rw [if_pos (by simp [htot])]
    simp

/-- C8 witness: with whitelist ["one"] and blacklist ["two"], `p1` at path
"g/one" is kept, `p2` at path "g/two" is dropped, and the single-page fetch
returns exactly the filtered listing. -/
theorem claim8_witness :
    keepProject cfg8 p1 = true ∧ keepProject cfg8 p2 = false ∧
    (getProjectsLoop envOnePage cfg8 7 1 1 []).1 = .ok [p1] := by
  refine ⟨?_, by decide, ?_⟩
  · exact (claim8_filter_semantics.1 cfg8 p1).mpr (by decide)
  · have h := claim8_filter_semantics.2 envOnePage cfg8 7 0 1 ⟨[p1, p2], 1, 1⟩ rfl rfl
    have h2 : ([p1, p2].filter (keepProject cfg8)) = [p1] := by decide
    rw [h2] at h
    exact h

/-- C3: with dry-run off, a declared branch rule whose fetched protection
has exactly one access-level entry on each axis equal to the declared
numeric role is skipped with no mutating call; in every other fetched state
(fetch error aside) the rule issues exactly one unprotect call (404 counted
as success) followed by exactly one protect call carrying the declared
levels.  The last part ties the per-rule function to
`EnsureBranchesAndProtection`. -/
theorem claim3_branch_rule_reconciliation (env : ReconcilerEnv) (pid : Nat)
    (b : ProtectedBranch) :
    (∀ pb : GoProtectedBranch,
      env.getProtectedBranch pid b.name = .ok (some pb) →
      pb.pushAccessLevels = [⟨accessLevelValue b.pushAccessLevel⟩] →
      pb.mergeAccessLevels = [⟨accessLevelValue b.mergeAccessLevel⟩] →
      processBranchRule env pid false b = (none, [APICall.getProtectedBranch pid b.name])) ∧
    (∀ fv, env.getProtectedBranch pid b.name = .ok fv →
      branchProtectionMatches (.ok fv) b = false →
      (env.unprotectBranch pid b.name = .ok ∨
        env.unprotectBranch pid b.name = .err (some ⟨404⟩)) →
      (processBranchRule env pid false b).2 =
        [APICall.getProtectedBranch pid b.name, APICall.unprotectBranch pid b.name,
          APICall.protectBranch pid b.name (accessLevelValue b.pushAccessLevel)
            (accessLevelValue b.mergeAccessLevel)]) ∧
    (∀ (cfg : Config) (project : Project),
      cfg.createDefaultBranch = false → cfg.protectedBranches = [b] → project.id = pid →
      (EnsureBranchesAndProtection env cfg project false).2 =
        (processBranchRule env pid false b).2) := by
  refine ⟨?_, ?_, ?_⟩
  · intro pb hfetch hpush hmerge
    have hmatch : branchProtectionMatches (env.getProtectedBranch pid b.name) b = true := by
      rw [hfetch]
      simp [branchProtectionMatches, compareAccessLevels, hpush, hmerge]
    simp [processBranchRule, hmatch]
  · intro fv hfetch hmm hunpro
    have hmatch : branchProtectionMatches (env.getProtectedBranch pid b.name) b = false := by
      rw [hfetch]; exact hmm
    simp only [processBranchRule, hmatch, Bool.false_eq_true, if_false]
    rcases hunpro with h | h <;>
      rw [h] <;>
      cases hP : env.protectBranch pid b.name <;>
      simp [hP]
  · intro cfg project h1 h2 h3
    have hd : ensureDefaultBranch env cfg project false = (.ok (), []) := by
      simp [ensureDefaultBranch, h1]
    simp only [EnsureBranchesAndProtection, hd, h2, h3, ensureBranchesLoop]
    cases hB : processBranchRule env pid false b with
    | mk r calls =>
      cases r <;> simp [ensureBranchesLoop]

/-- C3 witness: on the concrete remote, the matching rule for "main" issues
no mutating call and the mismatched rule for "dev" issues exactly one
unprotect followed by one protect at push 40 (maintainer) and merge 30
(developer). -/
theorem claim3_witness :
    processBranchRule renvW 1 false bMain = (none, [APICall.getProtectedBranch 1 "main"]) ∧
    (processBranchRule renvW 1 false bDev).2 =
      [APICall.getProtectedBranch 1 "dev", APICall.unprotectBranch 1 "dev",
        APICall.protectBranch 1 "dev" 40 30] := by
  constructor
  · exact (claim3_branch_rule_reconciliation renvW 1 bMain).1 ⟨[⟨40⟩], [⟨30⟩]⟩ rfl
      (by decide) (by decide)
  · have h := (claim3_branch_rule_reconciliation renvW 1 bDev).2.1
      (some ⟨[⟨30⟩], [⟨30⟩]⟩) rfl (by decide) (Or.inl rfl)
    exact h.trans (by decide)

/-- C9: when the default-branch-creation flag is set while the
project_settings section is absent, the guard of `ensureDefaultBranch`
dereferences the nil `ProjectSettings` pointer, so the call (and
`EnsureBranchesAndProtection` with it) panics instead of returning an
error value, for every project and either dry-run mode. -/
theorem claim9_nil_project_settings_panic (env : ReconcilerEnv) (cfg : Config)
    (project : Project) (dryrun : Bool)
    (h1 : cfg.createDefaultBranch = true) (h2 : cfg.projectSettings = none) :
    ensureDefaultBranch env cfg project dryrun = (.panics, []) ∧
    EnsureBranchesAndProtection env cfg project dryrun = (.panics, []) := by
  have hd : ensureDefaultBranch env cfg project dryrun = (.panics, []) := by
    simp [ensureDefaultBranch, h1, h2]
  exact ⟨hd, by simp [EnsureBranchesAndProtection, hd]⟩

/-- C9 witness: the concrete config `cfg9` sets the flag with no
project_settings section, and the call panics. -/
theorem claim9_witness :
    EnsureBranchesAndProtection renvW cfg9 p1 false = (.panics, []) :=
  (claim9_nil_project_settings_panic renvW cfg9 p1 false rfl rfl).2

/-- C6: when the structural diff between the fetched settings and the patch
marshalled through the full-settings schema has no update-type entry, the
settings reconcilers issue only the fetch call (no edit, no change-approval
call) and record equal original and updated snapshots for the project path,
for either dry-run mode. -/
theorem claim6_noop_patch (env : ReconcilerEnv) (cfg : Config) (st : ManagerState)
    (project : Project) (dryrun : Bool)
    (patchP : EditProjectOptions) (sP cP : Project)
    (hcfgP : cfg.projectSettings = some patchP)
    (hfetchP : env.getProject project.id = .ok sP)
    (hconvP : env.convertEditProjectOptionsToProject patchP = .ok cP)
    (hdiffP : ∀ ty ∈ env.diffProject sP cP, ty ≠ "update")
    (patchA : ChangeApprovalConfigurationOptions) (sA cA : ProjectApprovals)
    (hcfgA : cfg.approvalSettings = some patchA)
    (hfetchA : env.getApprovalConfiguration project.id = .ok sA)
    (hconvA : env.convertChangeApprovalConfigurationOptionsToProjectApprovals patchA = .ok cA)
    (hdiffA : ∀ ty ∈ env.diffApprovals sA cA, ty ≠ "update") :
    (UpdateProjectSettings env cfg st project dryrun).2.2 = [APICall.getProject project.id] ∧
    mapLookup (UpdateProjectSettings env cfg st project dryrun).2.1.projectSettingsUpdated
        project.pathWithNamespace =
      mapLookup (UpdateProjectSettings env cfg st project dryrun).2.1.projectSettingsOriginal
        project.pathWithNamespace ∧
    (UpdateProjectApprovalSettings env cfg st project dryrun).2.2 =
      [APICall.getApprovalConfiguration project.id] ∧
    mapLookup
        (UpdateProjectApprovalSettings env cfg st project dryrun).2.1.approvalSettingsUpdated
        project.pathWithNamespace =
      mapLookup
        (UpdateProjectApprovalSettings env cfg st project dryrun).2.1.approvalSettingsOriginal
        project.pathWithNamespace := by
  have hwillP : willChangeProjectSettings env sP cP = false := by
    simp only [willChangeProjectSettings]
    exact foldl_update_flag_false _ hdiffP
  have hwillA : willChangeApprovalSettings env sA cA = false := by
    simp only [willChangeApprovalSettings]
    exact foldl_update_flag_false _ hdiffA
  refine ⟨?_, ?_, ?_, ?_⟩ <;>
    simp [UpdateProjectSettings, UpdateProjectApprovalSettings, hcfgP, hfetchP, hconvP,
      hwillP, hcfgA, hfetchA, hconvA, hwillA, mapLookup_mapInsert_self]

/-- C6 witness: on the concrete remote with patches whose would-be objects
equal the fetched settings, both reconcilers issue only the fetch and the
snapshot pair is equal. -/
theorem claim6_witness :
    (UpdateProjectSettings renvW cfg6 ManagerState.initial p1 false).2.2 =
      [APICall.getProject 1] ∧
    mapLookup (UpdateProjectSettings renvW cfg6 ManagerState.initial p1
        false).2.1.projectSettingsUpdated "g/one" =
      mapLookup (UpdateProjectSettings renvW cfg6 ManagerState.initial p1
        false).2.1.projectSettingsOriginal "g/one" ∧
    (UpdateProjectApprovalSettings renvW cfg6 ManagerState.initial p1 false).2.2 =
      [APICall.getApprovalConfiguration 1] ∧
    mapLookup (UpdateProjectApprovalSettings renvW cfg6 ManagerState.initial p1
        false).2.1.approvalSettingsUpdated "g/one" =
      mapLookup (UpdateProjectApprovalSettings renvW cfg6 ManagerState.initial p1
        false).2.1.approvalSettingsOriginal "g/one" :=
  claim6_noop_patch renvW cfg6 ManagerState.initial p1 false
    ⟨none, 0⟩ ⟨1, "g/one", 0⟩ ⟨0, "", 0⟩ rfl rfl rfl (by decide)
    ⟨0⟩ ⟨0⟩ ⟨0⟩ rfl rfl rfl (by decide)

/-- In dry-run mode a branch rule issues exactly its fetch and nothing else,
and never fails. -/
theorem processBranchRule_dryrun (env : ReconcilerEnv) (pid : Nat) (b : ProtectedBranch) :
    processBranchRule env pid true b = (none, [APICall.getProtectedBranch pid b.name]) := by
  by_cases h : branchProtectionMatches (env.getProtectedBranch pid b.name) b = true
  · simp [processBranchRule, h]
  · rw [Bool.not_eq_true] at h
    simp [processBranchRule, h]

/-- In dry-run mode the branch-rule loop fetches every declared rule in
order and issues nothing else. -/
theorem ensureBranchesLoop_dryrun (env : ReconcilerEnv) (pid : Nat) :
    ∀ bs, ensureBranchesLoop env pid true bs =
      (none, bs.map (fun b => APICall.getProtectedBranch pid b.name)) := by
  intro bs
  induction bs with
  | nil => rfl
  | cons b rest ih =>
    simp [ensureBranchesLoop, processBranchRule_dryrun, ih]

/-- With dry-run off and every mutation succeeding, a branch rule never
fails and its fetch calls are exactly the dry-run trace. -/
theorem processBranchRule_reads (env : ReconcilerEnv) (pid : Nat) (b : ProtectedBranch)
    (hub : ∀ i n, env.unprotectBranch i n = MutRes.ok)
    (hpb : ∀ i n, env.protectBranch i n = none) :
    (processBranchRule env pid false b).1 = none ∧
    (processBranchRule env pid false b).2.filter APICall.isFetch =
      [APICall.getProtectedBranch pid b.name] := by
  by_cases h : branchProtectionMatches (env.getProtectedBranch pid b.name) b = true
  · simp [processBranchRule, h, APICall.isFetch, APICall.isMutating]
  · rw [Bool.not_eq_true] at h
    simp [processBranchRule, h, hub, hpb, APICall.isFetch, APICall.isMutating]

/-- With dry-run off and every mutation succeeding, the branch-rule loop
never fails and its fetch calls are exactly the dry-run trace. -/
theorem ensureBranchesLoop_reads (env : ReconcilerEnv) (pid : Nat)
    (hub : ∀ i n, env.unprotectBranch i n = MutRes.ok)
    (hpb : ∀ i n, env.protectBranch i n = none) :
    ∀ bs, (ensureBranchesLoop env pid false bs).1 = none ∧
      (ensureBranchesLoop env pid false bs).2.filter APICall.isFetch =
        bs.map (fun b => APICall.getProtectedBranch pid b.name) := by
  intro bs
  induction bs with
  | nil => simp [ensureBranchesLoop]
  | cons b rest ih =>
    obtain ⟨h1, h2⟩ := processBranchRule_reads env pid b hub hpb
    cases hB : processBranchRule env pid false b with
    | mk r calls =>
      rw [hB] at h1 h2
      simp only at h1 h2
      subst h1
      cases hR : ensureBranchesLoop env pid false rest with
      | mk r2 calls2 =>
        rw [hR] at ih
        obtain ⟨ih1, ih2⟩ := ih
        simp only at ih1 ih2
        subst ih1
        simp [ensureBranchesLoop, hB, hR, List.filter_append, h2, ih2]

/-- In dry-run mode a tag rule issues exactly its fetch and nothing else. -/
theorem processTagRule_dryrun (env : ReconcilerEnv) (pid : Nat) (t : ProtectedTag) :
    processTagRule env pid true t = (none, [APICall.getProtectedTag pid t.name]) := by
  by_cases h : tagProtectionMatches (env.getProtectedTag pid t.name) t = true
  · simp [processTagRule, h]
  · rw [Bool.not_eq_true] at h
    simp [processTagRule, h]

/-- In dry-run mode the tag-rule loop fetches every declared rule in order
and issues nothing else. -/
theorem ensureTagsLoop_dryrun (env : ReconcilerEnv) (pid : Nat) :
    ∀ ts, ensureTagsLoop env pid true ts =
      (none, ts.map (fun t => APICall.getProtectedTag pid t.name)) := by
  intro ts
  induction ts with
  | nil => rfl
  | cons t rest ih =>
    simp [ensureTagsLoop, processTagRule_dryrun, ih]

/-- With dry-run off and every mutation succeeding, a tag rule never fails
and its fetch calls are exactly the dry-run trace. -/
theorem processTagRule_reads (env : ReconcilerEnv) (pid : Nat) (t : ProtectedTag)
    (hut : ∀ i n, env.unprotectTag i n = MutRes.ok)
    (hpt : ∀ i n, env.protectTag i n = none) :
    (processTagRule env pid false t).1 = none ∧
    (processTagRule env pid false t).2.filter APICall.isFetch =
      [APICall.getProtectedTag pid t.name] := by
  by_cases h : tagProtectionMatches (env.getProtectedTag pid t.name) t = true
  · simp [processTagRule, h, APICall.isFetch, APICall.isMutating]
  · rw [Bool.not_eq_true] at h
    simp [processTagRule, h, hut, hpt, APICall.isFetch, APICall.isMutating]

/-- With dry-run off and every mutation succeeding, the tag-rule loop never
fails and its fetch calls are exactly the dry-run trace. -/
theorem ensureTagsLoop_reads (env : ReconcilerEnv) (pid : Nat)
    (hut : ∀ i n, env.unprotectTag i n = MutRes.ok)
    (hpt : ∀ i n, env.protectTag i n = none) :
    ∀ ts, (ensureTagsLoop env pid false ts).1 = none ∧
      (ensureTagsLoop env pid false ts).2.filter APICall.isFetch =
        ts.map (fun t => APICall.getProtectedTag pid t.name) := by
  intro ts
  induction ts with
  | nil => simp [ensureTagsLoop]
  | cons t rest ih =>
    obtain ⟨h1, h2⟩ := processTagRule_reads env pid t hut hpt
    cases hB : processTagRule env pid false t with
    | mk r calls =>
      rw [hB] at h1 h2
      simp only at h1 h2
      subst h1
      cases hR : ensureTagsLoop env pid false rest with
      | mk r2 calls2 =>
        rw [hR] at ih
        obtain ⟨ih1, ih2⟩ := ih
        simp only at ih1 ih2
        subst ih1
        simp [ensureTagsLoop, hB, hR, List.filter_append, h2, ih2]

/-- A dry-run default-branch ensure never issues a mutating call. -/
theorem ensureDefaultBranch_dryrun_no_mutations (env : ReconcilerEnv) (cfg : Config)
    (project : Project) :
    (ensureDefaultBranch env cfg project true).2.filter APICall.isMutating = [] := by
  unfold ensureDefaultBranch
  repeat' split
  all_goals simp_all [APICall.isMutating]

/-- When branch creation succeeds, the non-dry default-branch ensure has the
same outcome as the dry-run one and its fetch calls are exactly the dry-run
trace. -/
theorem ensureDefaultBranch_reads (env : ReconcilerEnv) (cfg : Config) (project : Project)
    (hcb : ∀ i n, env.createBranch i n = none) :
    (ensureDefaultBranch env cfg project false).1 =
      (ensureDefaultBranch env cfg project true).1 ∧
    (ensureDefaultBranch env cfg project false).2.filter APICall.isFetch =
      (ensureDefaultBranch env cfg project true).2 := by
  by_cases h1 : cfg.createDefaultBranch = true
  · cases hps : cfg.projectSettings with
    | none => simp [ensureDefaultBranch, h1, hps]
    | some ps =>
      cases hdb : ps.defaultBranch with
      | none => simp [ensureDefaultBranch, h1, hps, hdb]
      | some branch =>
        by_cases hb : branch = "master"
        · simp [ensureDefaultBranch, h1, hps, hdb, hb]
        · cases hgb : env.getBranch project.id branch with
          | ok u =>
            simp [ensureDefaultBranch, h1, hps, hdb, hb, hgb,
              APICall.isFetch, APICall.isMutating]
          | error resp =>
            cases resp with
            | none =>
              simp [ensureDefaultBranch, h1, hps, hdb, hb, hgb,
                APICall.isFetch, APICall.isMutating]
            | some r =>
              by_cases hst : r.statusCode = 404
              · simp [ensureDefaultBranch, h1, hps, hdb, hb, hgb, hst, hcb,
                  APICall.isFetch, APICall.isMutating]
              · simp [ensureDefaultBranch, h1, hps, hdb, hb, hgb, hst,
                  APICall.isFetch, APICall.isMutating]
  · rw [Bool.not_eq_true] at h1
    simp [ensureDefaultBranch, h1]

/-- A dry-run project-settings update never issues a mutating call. -/
theorem updateProjectSettings_dryrun_no_mutations (env : ReconcilerEnv) (cfg : Config)
    (st : ManagerState) (project : Project) :
    (UpdateProjectSettings env cfg st project true).2.2.filter APICall.isMutating = [] := by
  cases hps : cfg.projectSettings with
  | none => simp [UpdateProjectSettings, hps]
  | some patch =>
    cases hfp : env.getProject project.id with
    | error e => simp [UpdateProjectSettings, hps, hfp, APICall.isMutating]
    | ok sP =>
      cases hcv : env.convertEditProjectOptionsToProject patch with
      | error e => simp [UpdateProjectSettings, hps, hfp, hcv, APICall.isMutating]
      | ok cP =>
        by_cases hw : willChangeProjectSettings env sP cP = true
        · simp [UpdateProjectSettings, hps, hfp, hcv, hw, APICall.isMutating]
        · rw [Bool.not_eq_true] at hw
          simp [UpdateProjectSettings, hps, hfp, hcv, hw, APICall.isMutating]

/-- When the edit call succeeds, the non-dry project-settings update has
fetch calls exactly equal to the dry-run trace. -/
theorem updateProjectSettings_reads (env : ReconcilerEnv) (cfg : Config)
    (st : ManagerState) (project : Project)
    (hedit : ∀ i p msg, env.editProject i p ≠ .error msg) :
    (UpdateProjectSettings env cfg st project false).2.2.filter APICall.isFetch =
      (UpdateProjectSettings env cfg st project true).2.2 := by
  cases hps : cfg.projectSettings with
  | none => simp [UpdateProjectSettings, hps]
  | some patch =>
    cases hfp : env.getProject project.id with
    | error e => simp [UpdateProjectSettings, hps, hfp, APICall.isFetch, APICall.isMutating]
    | ok sP =>
      cases hcv : env.convertEditProjectOptionsToProject patch with
      | error e =>
        simp [UpdateProjectSettings, hps, hfp, hcv, APICall.isFetch, APICall.isMutating]
      | ok cP =>
        by_cases hw : willChangeProjectSettings env sP cP = true
        · cases hed : env.editProject project.id patch with
          | error e => exact absurd hed (hedit _ _ _)
          | ok r =>
            simp [UpdateProjectSettings, hps, hfp, hcv, hw, hed,
              APICall.isFetch, APICall.isMutating]
        · rw [Bool.not_eq_true] at hw
          simp [UpdateProjectSettings, hps, hfp, hcv, hw,
            APICall.isFetch, APICall.isMutating]

/-- A dry-run approval-settings update never issues a mutating call. -/
theorem updateApprovalSettings_dryrun_no_mutations (env : ReconcilerEnv) (cfg : Config)
    (st : ManagerState) (project : Project) :
    (UpdateProjectApprovalSettings env cfg st project true).2.2.filter
      APICall.isMutating = [] := by
  cases hps : cfg.approvalSettings with
  | none => simp [UpdateProjectApprovalSettings, hps]
  | some patch =>
    cases hfp : env.getApprovalConfiguration project.id with
    | error e => simp [UpdateProjectApprovalSettings, hps, hfp, APICall.isMutating]
    | ok sA =>
      cases hcv : env.convertChangeApprovalConfigurationOptionsToProjectApprovals patch with
      | error e => simp [UpdateProjectApprovalSettings, hps, hfp, hcv, APICall.isMutating]
      | ok cA =>
        by_cases hw : willChangeApprovalSettings env sA cA = true
        · simp [UpdateProjectApprovalSettings, hps, hfp, hcv, hw, APICall.isMutating]
        · rw [Bool.not_eq_true] at hw
          simp [UpdateProjectApprovalSettings, hps, hfp, hcv, hw, APICall.isMutating]

/-- When the change-approval call succeeds, the non-dry approval-settings
update has fetch calls exactly equal to the dry-run trace. -/
theorem updateApprovalSettings_reads (env : ReconcilerEnv) (cfg : Config)
    (st : ManagerState) (project : Project)
    (hchg : ∀ i p msg, env.changeApprovalConfiguration i p ≠ .error msg) :
    (UpdateProjectApprovalSettings env cfg st project false).2.2.filter APICall.isFetch =
      (UpdateProjectApprovalSettings env cfg st project true).2.2 := by
  cases hps : cfg.approvalSettings with
  | none => simp [UpdateProjectApprovalSettings, hps]
  | some patch =>
    cases hfp : env.getApprovalConfiguration project.id with
    | error e =>
      simp [UpdateProjectApprovalSettings, hps, hfp, APICall.isFetch, APICall.isMutating]
    | ok sA =>
      cases hcv : env.convertChangeApprovalConfigurationOptionsToProjectApprovals patch with
      | error e =>
        simp [UpdateProjectApprovalSettings, hps, hfp, hcv,
          APICall.isFetch, APICall.isMutating]
      | ok cA =>
        by_cases hw : willChangeApprovalSettings env sA cA = true
        · cases hed : env.changeApprovalConfiguration project.id patch with
          | error e => exact absurd hed (hchg _ _ _)
          | ok r =>
            simp [UpdateProjectApprovalSettings, hps, hfp, hcv, hw, hed,
              APICall.isFetch, APICall.isMutating]
        · rw [Bool.not_eq_true] at hw
          simp [UpdateProjectApprovalSettings, hps, hfp, hcv, hw,
            APICall.isFetch, APICall.isMutating]

/-- A list of branch fetches contains no mutating call. -/
theorem filter_isMutating_map_branch (pid : Nat) (bs : List ProtectedBranch) :
    ((bs.map (fun b => APICall.getProtectedBranch pid b.name)).filter
      APICall.isMutating) = [] := by
  rw [List.filter_eq_nil_iff]
  intro c hc
  rcases List.mem_map.mp hc with ⟨b, hb, rfl⟩
  simp [APICall.isMutating]

/-- A list of tag fetches contains no mutating call. -/
theorem filter_isMutating_map_tag (pid : Nat) (ts : List ProtectedTag) :
    ((ts.map (fun t => APICall.getProtectedTag pid t.name)).filter
      APICall.isMutating) = [] := by
  rw [List.filter_eq_nil_iff]
  intro c hc
  rcases List.mem_map.mp hc with ⟨t, ht, rfl⟩
  simp [APICall.isMutating]

/-- C5: in dry-run mode none of the five reconciliation functions issues a
mutating remote call, for any project, any config and any remote state; and
the read/compare logic still executes: when the (skipped) mutations would
succeed, the fetch calls of a non-dry run are exactly the dry-run trace of
the same function. -/
theorem claim5_dryrun_skips_mutations (env : ReconcilerEnv) (cfg : Config)
    (project : Project) (st : ManagerState) :
    ((EnsureBranchesAndProtection env cfg project true).2.filter APICall.isMutating = []) ∧
    ((EnsureTagsProtection env cfg project true).2.filter APICall.isMutating = []) ∧
    ((ensureDefaultBranch env cfg project true).2.filter APICall.isMutating = []) ∧
    ((UpdateProjectSettings env cfg st project true).2.2.filter APICall.isMutating = []) ∧
    ((UpdateProjectApprovalSettings env cfg st project true).2.2.filter
      APICall.isMutating = []) ∧
    ((∀ i n, env.unprotectBranch i n = MutRes.ok) →
      (∀ i n, env.protectBranch i n = none) →
      (∀ i n, env.unprotectTag i n = MutRes.ok) →
      (∀ i n, env.protectTag i n = none) →
      (∀ i n, env.createBranch i n = none) →
      (∀ i p msg, env.editProject i p ≠ .error msg) →
      (∀ i p msg, env.changeApprovalConfiguration i p ≠ .error msg) →
      ((EnsureBranchesAndProtection env cfg project false).2.filter APICall.isFetch =
        (EnsureBranchesAndProtection env cfg project true).2) ∧
      ((EnsureTagsProtection env cfg project false).2.filter APICall.isFetch =
        (EnsureTagsProtection env cfg project true).2) ∧
      ((ensureDefaultBranch env cfg project false).2.filter APICall.isFetch =
        (ensureDefaultBranch env cfg project true).2) ∧
      ((UpdateProjectSettings env cfg st project false).2.2.filter APICall.isFetch =
        (UpdateProjectSettings env cfg st project true).2.2) ∧
      ((UpdateProjectApprovalSettings env cfg st project false).2.2.filter APICall.isFetch =
        (UpdateProjectApprovalSettings env cfg st project true).2.2)) := by
  have hbl := ensureBranchesLoop_dryrun env project.id cfg.protectedBranches
  have htl := ensureTagsLoop_dryrun env project.id cfg.protectedTags
  refine ⟨?_, ?_, ensureDefaultBranch_dryrun_no_mutations env cfg project,
    updateProjectSettings_dryrun_no_mutations env cfg st project,
    updateApprovalSettings_dryrun_no_mutations env cfg st project, ?_⟩
  · cases hD : ensureDefaultBranch env cfg project true with
    | mk rD cD =>
      have hDm := ensureDefaultBranch_dryrun_no_mutations env cfg project
      rw [hD] at hDm
      simp only at hDm
      cases rD with
      | ok u =>
        simp [EnsureBranchesAndProtection, hD, hbl, List.filter_append, hDm,
          filter_isMutating_map_branch]
      | err e => simp [EnsureBranchesAndProtection, hD, hDm]
      | panics => simp [EnsureBranchesAndProtection, hD, hDm]
  · simp [EnsureTagsProtection, htl, filter_isMutating_map_tag]
  · intro hub hpb hut hpt hcb hedit hchg
    obtain ⟨hr1, hr2⟩ := ensureDefaultBranch_reads env cfg project hcb
    refine ⟨?_, ?_, hr2,
      updateProjectSettings_reads env cfg st project hedit,
      updateApprovalSettings_reads env cfg st project hchg⟩
    · cases hF : ensureDefaultBranch env cfg project false with
      | mk rF cF =>
        cases hT : ensureDefaultBranch env cfg project true with
        | mk rT cT =>
          rw [hF, hT] at hr1 hr2
          simp only at hr1 hr2
          subst hr1
          obtain ⟨hbl1, hbl2⟩ := ensureBranchesLoop_reads env project.id hub hpb
            cfg.protectedBranches
          cases hLF : ensureBranchesLoop env project.id false cfg.protectedBranches with
          | mk rLF cLF =>
            rw [hLF] at hbl1 hbl2
            simp only at hbl1 hbl2
            subst hbl1
            cases rF with
            | ok u =>
              simp [EnsureBranchesAndProtection, hF, hT, hLF, hbl,
                List.filter_append, hr2, hbl2]
            | err e => simp [EnsureBranchesAndProtection, hF, hT, hr2]
            | panics => simp [EnsureBranchesAndProtection, hF, hT, hr2]
    · obtain ⟨htl1, htl2⟩ := ensureTagsLoop_reads env project.id hut hpt cfg.protectedTags
      cases hLF : ensureTagsLoop env project.id false cfg.protectedTags with
      | mk rLF cLF =>
        rw [hLF] at htl1 htl2
        simp only at htl1 htl2
        subst htl1
        simp [EnsureTagsProtection, hLF, htl, htl2]

/-- C5 witness: on the concrete remote and config with two branch rules, a
tag rule and both settings patches, dry-run issues no mutating call and its
trace equals the fetch part of the non-dry trace. -/
theorem claim5_witness :
    ((EnsureBranchesAndProtection renvW cfg5 p1 true).2.filter APICall.isMutating = []) ∧
    ((UpdateProjectSettings renvW cfg5 ManagerState.initial p1 true).2.2.filter
      APICall.isMutating = []) ∧
    ((EnsureBranchesAndProtection renvW cfg5 p1 false).2.filter APICall.isFetch =
      (EnsureBranchesAndProtection renvW cfg5 p1 true).2) ∧
    ((EnsureTagsProtection renvW cfg5 p1 false).2.filter APICall.isFetch =
      (EnsureTagsProtection renvW cfg5 p1 true).2) := by
  have h := claim5_dryrun_skips_mutations renvW cfg5 p1 ManagerState.initial
  have hB := h.2.2.2.2.2 (fun i n => rfl) (fun i n => rfl) (fun i n => rfl)
    (fun i n => rfl) (fun i n => rfl) (fun i p msg => by simp [renvW])
    (fun i p msg => by simp [renvW])
  exact ⟨h.1, h.2.2.2.1, hB.1, hB.2.1⟩

/-- The sync loop body raises the flag exactly for a failed operation,
otherwise passing the incoming flag through. -/
theorem syncProjectStep_true_iff (o : SyncOutcome) (flag : Bool) :
    syncProjectStep o flag = true ↔ flag = true ∨
      (o.ensureBranches.isSome = true ∨ o.updateSettings.isSome = true ∨
        o.updateApprovals.isSome = true) := by
  simp only [syncProjectStep]
  by_cases h1 : o.ensureBranches.isSome = true <;>
    by_cases h2 : o.updateSettings.isSome = true <;>
    by_cases h3 : o.updateApprovals.isSome = true <;>
    simp [h1, h2, h3]

/-- The sync loop processes every project and its final flag is true iff the
initial flag was or some processed operation failed. -/
theorem syncLoop_spec : ∀ (outcomes : List SyncOutcome) (flag : Bool),
    (syncLoop outcomes flag).2 = outcomes.map SyncOutcome.projectPath ∧
    ((syncLoop outcomes flag).1 = true ↔ flag = true ∨ ∃ o ∈ outcomes,
      o.ensureBranches.isSome = true ∨ o.updateSettings.isSome = true ∨
        o.updateApprovals.isSome = true) := by
  intro outcomes
  induction outcomes with
  | nil => intro flag; simp [syncLoop]
  | cons o rest ih =>
    intro flag
    obtain ⟨ih1, ih2⟩ := ih (syncProjectStep o flag)
    cases hR : syncLoop rest (syncProjectStep o flag) with
    | mk f names =>
      rw [hR] at ih1 ih2
      simp only at ih1 ih2
      constructor
      · simp [syncLoop, hR, ih1]
      · simp only [syncLoop, hR, ih2, syncProjectStep_true_iff,
          List.exists_mem_cons_iff]
        aesop

/-- The compliance loop body raises the flag exactly for a failed fetch. -/
theorem compliancePerProject_flag (env : ReconcilerEnv) (st : ManagerState)
    (flag : Bool) (p : Project) :
    ((compliancePerProject env st flag p).2 = true) ↔ (flag = true ∨
      (∃ msg, env.getApprovalConfiguration p.id = .error msg) ∨
      (∃ msg, env.getProject p.id = .error msg)) := by
  cases hA : env.getApprovalConfiguration p.id <;>
    cases hS : env.getProject p.id <;>
    simp [compliancePerProject, hA, hS]

/-- The compliance loop processes every project and its final flag is true
iff the initial flag was or some fetch failed. -/
theorem complianceLoop_spec (env : ReconcilerEnv) :
    ∀ (projects : List Project) (st : ManagerState) (flag : Bool),
    (complianceLoop env projects st flag).2.2 = projects.map Project.pathWithNamespace ∧
    ((complianceLoop env projects st flag).2.1 = true ↔ flag = true ∨ ∃ p ∈ projects,
      (∃ msg, env.getApprovalConfiguration p.id = .error msg) ∨
      (∃ msg, env.getProject p.id = .error msg)) := by
  intro projects
  induction projects with
  | nil => intro st flag; simp [complianceLoop]
  | cons p rest ih =>
    intro st flag
    cases hP : compliancePerProject env st flag p with
    | mk st1 flag1 =>
      obtain ⟨ih1, ih2⟩ := ih st1 flag1
      cases hR : complianceLoop env rest st1 flag1 with
      | mk st2 rest2 =>
        obtain ⟨flag2, names⟩ := rest2
        rw [hR] at ih1 ih2
        simp only at ih1 ih2
        have hflag1 : flag1 = true ↔ flag = true ∨
            (∃ msg, env.getApprovalConfiguration p.id = .error msg) ∨
            (∃ msg, env.getProject p.id = .error msg) := by
          have := compliancePerProject_flag env st flag p
          rw [hP] at this
          exact this
        constructor
        · simp [complianceLoop, hP, hR, ih1]
        · simp only [complianceLoop, hP, hR, ih2, hflag1, List.exists_mem_cons_iff]
          aesop

/-- C4: in both commands a failed per-project operation only raises the
process-wide error flag and processing continues: every project is
processed, and (with the report steps succeeding, as the embedded
generators do unless they panic) the process exits non-zero iff at least
one per-project operation failed. -/
theorem claim4_per_project_error_isolation (outcomes : List SyncOutcome)
    (renv : ReconcilerEnv) (fenv : ReflectEnv) (comp : ComplianceSettings)
    (projects : List Project) :
    ((syncCmdRun outcomes none false).2 = outcomes.map SyncOutcome.projectPath) ∧
    ((syncCmdRun outcomes none false).1 ≠ 0 ↔ ∃ o ∈ outcomes,
      o.ensureBranches.isSome = true ∨ o.updateSettings.isSome = true ∨
        o.updateApprovals.isSome = true) ∧
    ((complianceCmdRun renv fenv comp projects false).2 =
      projects.map Project.pathWithNamespace) ∧
    ((∃ lines, GenerateComplianceReport fenv comp
        (complianceLoop renv projects ManagerState.initial false).1 = .ok lines) →
      (∃ lines, GenerateComplianceEmail fenv comp
        (complianceLoop renv projects ManagerState.initial false).1 = .ok lines) →
      ((complianceCmdRun renv fenv comp projects false).1 = some 1 ↔ ∃ p ∈ projects,
        (∃ msg, renv.getApprovalConfiguration p.id = .error msg) ∨
        (∃ msg, renv.getProject p.id = .error msg))) := by
  obtain ⟨hs1, hs2⟩ := syncLoop_spec outcomes false
  obtain ⟨hc1, hc2⟩ := complianceLoop_spec renv projects ManagerState.initial false
  cases hSL : syncLoop outcomes false with
  | mk flag names =>
    rw [hSL] at hs1 hs2
    simp only at hs1 hs2
    refine ⟨by simp [syncCmdRun, hSL, hs1], ?_, ?_, ?_⟩
    · rw [show (syncCmdRun outcomes none false).1 = if flag then 1 else 0 by
        simp [syncCmdRun, hSL]]
      cases flag with
      | true => simpa using hs2
      | false =>
        simp only [Bool.false_eq_true, if_false]
        constructor
        · intro h; exact absurd rfl h
        · intro h
          have := hs2.mpr (Or.inr h)
          cases this
    · cases hCL : complianceLoop renv projects ManagerState.initial false with
      | mk st1 rest1 =>
        obtain ⟨flag1, names1⟩ := rest1
        rw [hCL] at hc1
        simp only at hc1
        cases hRep : GenerateComplianceReport fenv comp st1 <;>
          cases hEm : GenerateComplianceEmail fenv comp st1 <;>
          simp [complianceCmdRun, hCL, hRep, hEm, hc1]
    · intro ⟨lines1, hRep⟩ ⟨lines2, hEm⟩
      cases hCL : complianceLoop renv projects ManagerState.initial false with
      | mk st1 rest1 =>
        obtain ⟨flag1, names1⟩ := rest1
        rw [hCL] at hRep hEm hc2
        simp only at hRep hEm hc2
        simp only [complianceCmdRun, hCL, hRep, hEm]
        cases flag1 with
        | true => simpa using hc2
        | false =>
          simp only [Bool.false_eq_true, if_false]
          constructor
          · intro h
            cases h
          · intro h
            have := hc2.mpr (Or.inr h)
            cases this

/-- C4 witness: a failing first project does not stop the second from being
processed and forces a non-zero exit; a compliance run over one project
whose fetches fail exits non-zero. -/
theorem claim4_witness :
    (syncCmdRun [⟨"g/bad", some "boom", none, none⟩, ⟨"g/one", none, none, none⟩]
      none false).2 = ["g/bad", "g/one"] ∧
    (syncCmdRun [⟨"g/bad", some "boom", none, none⟩, ⟨"g/one", none, none, none⟩]
      none false).1 ≠ 0 ∧
    (complianceCmdRun renvFail fenvW compEmpty [p1] false).1 = some 1 := by
  have h := claim4_per_project_error_isolation
    [⟨"g/bad", some "boom", none, none⟩, ⟨"g/one", none, none, none⟩]
    renvFail fenvW compEmpty [p1]
  refine ⟨h.1, ?_, ?_⟩
  · exact h.2.1.mpr ⟨⟨"g/bad", some "boom", none, none⟩, by simp, Or.inl rfl⟩
  · have h4 := h.2.2.2 ⟨[], by decide⟩ ⟨[], by decide⟩
    exact h4.mpr ⟨p1, by simp, Or.inl ⟨"fetch failed", rfl⟩⟩

/-- Membership is preserved by sorted insertion. -/
theorem mem_insertSorted (a x : String) : ∀ l : List String,
    a ∈ insertSorted x l ↔ a = x ∨ a ∈ l := by
  intro l
  induction l with
  | nil => simp [insertSorted]
  | cons y ys ih =>
    by_cases h : goStringLe x y = true
    · simp [insertSorted, h]
    · rw [Bool.not_eq_true] at h
      simp only [insertSorted, h, Bool.false_eq_true, if_false, List.mem_cons, ih]
      tauto

/-- Membership is preserved by the key sort. -/
theorem mem_sortStrings (a : String) : ∀ l : List String, a ∈ l → a ∈ sortStrings l := by
  intro l
  induction l with
  | nil => intro h; cases h
  | cons x xs ih =>
    intro h
    rw [sortStrings, mem_insertSorted]
    rcases List.mem_cons.mp h with h | h
    · exact Or.inl h
    · exact Or.inr (ih h)

/-- A rendered cell is never an error value: it is a panic (nil snapshot) or
a rendered string. -/
theorem renderSettingValue_ne_err (env : ReflectEnv) (st : ManagerState)
    (name subsection setting : String) (e : String) :
    renderSettingValue env st name subsection setting ≠ .err e := by
  unfold renderSettingValue
  repeat' split
  all_goals simp

/-- A rendered report line is never an error value. -/
theorem renderSettingLine_ne_err (env : ReflectEnv) (comp : ComplianceSettings)
    (st : ManagerState) (name subsection setting : String) (e : String) :
    renderSettingLine env comp st name subsection setting ≠ .err e := by
  unfold renderSettingLine
  cases hV : renderSettingValue env st name subsection setting with
  | panics => simp
  | err e2 => exact absurd hV (renderSettingValue_ne_err env st name subsection setting e2)
  | ok v => simp

/-- Collecting renderings whose steps never error never errors. -/
theorem goResCollect_ne_err {α : Type} (f : α → GoRes (List String)) :
    ∀ l : List α, (∀ a ∈ l, ∀ e, f a ≠ .err e) → ∀ e, goResCollect f l ≠ .err e := by
  intro l
  induction l with
  | nil => intro _ e h; cases h
  | cons a rest ih =>
    intro hf e
    cases ha : f a with
    | panics => simp [goResCollect, ha]
    | err e2 => exact absurd ha (hf a (List.mem_cons_self a rest) e2)
    | ok lines =>
      cases hrec : goResCollect f rest with
      | panics => simp [goResCollect, ha, hrec]
      | err e2 =>
        exact absurd hrec (ih (fun b hb => hf b (List.mem_cons_of_mem a hb)) e2)
      | ok more => simp [goResCollect, ha, hrec]

/-- Collecting renderings panics when some step panics and no step errors
(the first panic aborts the run). -/
theorem goResCollect_panics {α : Type} (f : α → GoRes (List String)) (a : α) :
    ∀ l : List α, a ∈ l → f a = .panics → (∀ b ∈ l, ∀ e, f b ≠ .err e) →
      goResCollect f l = .panics := by
  intro l
  induction l with
  | nil => intro ha; cases ha
  | cons b rest ih =>
    intro ha hpa hne
    cases hb : f b with
    | panics => simp [goResCollect, hb]
    | err e => exact absurd hb (hne b (List.mem_cons_self b rest) e)
    | ok lines =>
      have ha2 : a ∈ rest := by
        rcases List.mem_cons.mp ha with h | h
        · subst h
          rw [hb] at hpa
          cases hpa
        · exact h
      have hrec := ih ha2 hpa (fun b2 hb2 e => hne b2 (List.mem_cons_of_mem b hb2) e)
      simp [goResCollect, hb, hrec]

/-- A project block is never an error value. -/
theorem renderProjectBlock_ne_err (env : ReflectEnv) (comp : ComplianceSettings)
    (st : ManagerState) (name : String) (e : String) :
    renderProjectBlock env comp st name ≠ .err e := by
  unfold renderProjectBlock
  apply goResCollect_ne_err
  intro subsection _ e2
  apply goResCollect_ne_err
  intro setting _ e3
  cases hL : renderSettingLine env comp st name subsection setting with
  | panics => simp
  | err e4 => exact absurd hL (renderSettingLine_ne_err env comp st name subsection setting e4)
  | ok line => simp

/-- A project block panics when the approval snapshot recorded for the
project is nil and the approval subsection mandates at least one setting. -/
theorem renderProjectBlock_panics (env : ReflectEnv) (comp : ComplianceSettings)
    (st : ManagerState) (name : String)
    (hnil : mapLookup st.approvalSettingsOriginal name = none)
    (hsub : mandatorySettings comp "approval_settings" ≠ []) :
    renderProjectBlock env comp st name = .panics := by
  obtain ⟨entry0, hmem0⟩ : ∃ entry, entry ∈ mandatorySettings comp "approval_settings" := by
    cases h : mandatorySettings comp "approval_settings" with
    | nil => exact absurd h hsub
    | cons entry rest => exact ⟨entry, List.mem_cons_self entry rest⟩
  have hsubmem : "approval_settings" ∈ comp.mandatory.map Prod.fst := by
    unfold mandatorySettings at hsub
    cases hf : comp.mandatory.find? (fun e => e.fst = "approval_settings") with
    | none => rw [hf] at hsub; exact absurd rfl hsub
    | some entry =>
      have hmem := List.mem_of_find?_eq_some hf
      have hfst : entry.fst = "approval_settings" := by
        have h2 := List.find?_some hf
        simpa using h2
      exact List.mem_map.mpr ⟨entry, hmem, hfst⟩
  unfold renderProjectBlock
  apply goResCollect_panics _ "approval_settings" _
    (mem_sortStrings _ _ hsubmem)
  · apply goResCollect_panics _ entry0.fst _
      (mem_sortStrings _ _ (List.mem_map.mpr ⟨entry0, hmem0, rfl⟩))
    · have hline : renderSettingLine env comp st name "approval_settings" entry0.fst =
          .panics := by
        unfold renderSettingLine renderSettingValue
        simp [hnil]
      rw [hline]
    · intro setting _ e
      cases hL : renderSettingLine env comp st name "approval_settings" setting with
      | panics => simp
      | err e4 =>
        exact absurd hL
          (renderSettingLine_ne_err env comp st name "approval_settings" setting e4)
      | ok line => simp
  · intro subsection _ e
    apply goResCollect_ne_err
    intro setting _ e3
    cases hL : renderSettingLine env comp st name subsection setting with
    | panics => simp
    | err e4 =>
      exact absurd hL (renderSettingLine_ne_err env comp st name subsection setting e4)
    | ok line => simp

/-- A project block panics likewise when the project-settings snapshot
recorded for the project is nil and the project subsection mandates at
least one setting. -/
theorem renderProjectBlock_panics_project (env : ReflectEnv) (comp : ComplianceSettings)
    (st : ManagerState) (name : String)
    (hnil : mapLookup st.projectSettingsOriginal name = none)
    (hsub : mandatorySettings comp "project_settings" ≠ []) :
    renderProjectBlock env comp st name = .panics := by
  obtain ⟨entry0, hmem0⟩ : ∃ entry, entry ∈ mandatorySettings comp "project_settings" := by
    cases h : mandatorySettings comp "project_settings" with
    | nil => exact absurd h hsub
    | cons entry rest => exact ⟨entry, List.mem_cons_self entry rest⟩
  have hsubmem : "project_settings" ∈ comp.mandatory.map Prod.fst := by
    unfold mandatorySettings at hsub
    cases hf : comp.mandatory.find? (fun e => e.fst = "project_settings") with
    | none => rw [hf] at hsub; exact absurd rfl hsub
    | some entry =>
      have hmem := List.mem_of_find?_eq_some hf
      have hfst : entry.fst = "project_settings" := by
        have h2 := List.find?_some hf
        simpa using h2
      exact List.mem_map.mpr ⟨entry, hmem, hfst⟩
  unfold renderProjectBlock
  apply goResCollect_panics _ "project_settings" _
    (mem_sortStrings _ _ hsubmem)
  · apply goResCollect_panics _ entry0.fst _
      (mem_sortStrings _ _ (List.mem_map.mpr ⟨entry0, hmem0, rfl⟩))
    · have hline : renderSettingLine env comp st name "project_settings" entry0.fst =
          .panics := by
        unfold renderSettingLine renderSettingValue
        simp [hnil]
      rw [hline]
    · intro setting _ e
      cases hL : renderSettingLine env comp st name "project_settings" setting with
      | panics => simp
      | err e4 =>
        exact absurd hL
          (renderSettingLine_ne_err env comp st name "project_settings" setting e4)
      | ok line => simp
  · intro subsection _ e
    apply goResCollect_ne_err
    intro setting _ e3
    cases hL : renderSettingLine env comp st name subsection setting with
    | panics => simp
    | err e4 =>
      exact absurd hL (renderSettingLine_ne_err env comp st name subsection setting e4)
    | ok line => simp

/-- C10: the compliance command records a snapshot under the project path
even when the fetch fails, storing a nil pointer (both for a failed
approval fetch and for a failed project-settings fetch); and once any
listed project has a nil ApprovalSettingsOriginal or ProjectSettingsOriginal
entry while the corresponding subsection mandates a setting, both report
generators panic in the reflection-based lookup instead of rendering a
value (the email one once its delivery gate is configured). -/
theorem claim10_nil_snapshot_panics (renv : ReconcilerEnv) (fenv : ReflectEnv)
    (comp : ComplianceSettings) (st stc : ManagerState) (name : String)
    (flag : Bool) (p : Project)
    (hmemName : name ∈ st.projectSettingsOriginal.map Prod.fst)
    (hnil : (mapLookup st.approvalSettingsOriginal name = none ∧
        mandatorySettings comp "approval_settings" ≠ []) ∨
      (mapLookup st.projectSettingsOriginal name = none ∧
        mandatorySettings comp "project_settings" ≠ [])) :
    (∀ msg, renv.getApprovalConfiguration p.id = .error msg →
      mapLookup (compliancePerProject renv stc flag p).1.approvalSettingsOriginal
        p.pathWithNamespace = none) ∧
    (∀ msg, renv.getProject p.id = .error msg →
      mapLookup (compliancePerProject renv stc flag p).1.projectSettingsOriginal
        p.pathWithNamespace = none) ∧
    GenerateComplianceReport fenv comp st = .panics ∧
    (comp.email.fromAddr ≠ "" → comp.email.server ≠ "" → comp.email.port ≠ 0 →
      GenerateComplianceEmail fenv comp st = .panics) := by
  have hblock : renderProjectBlock fenv comp st name = .panics := by
    rcases hnil with ⟨hn, hs⟩ | ⟨hn, hs⟩
    · exact renderProjectBlock_panics fenv comp st name hn hs
    · exact renderProjectBlock_panics_project fenv comp st name hn hs
  have hpanic : goResCollect (renderProjectBlock fenv comp st)
      (sortStrings (st.projectSettingsOriginal.map Prod.fst)) = .panics := by
    apply goResCollect_panics _ name _ (mem_sortStrings _ _ hmemName) hblock
    intro b _ e
    exact renderProjectBlock_ne_err fenv comp st b e
  refine ⟨?_, ?_, hpanic, ?_⟩
  · intro msg hmsg
    cases hS : renv.getProject p.id <;>
      simp [compliancePerProject, hmsg, hS, mapLookup_mapInsert_self]
  · intro msg hmsg
    cases hA : renv.getApprovalConfiguration p.id <;>
      simp [compliancePerProject, hA, hmsg, mapLookup_mapInsert_self]
  · intro h1 h2 h3
    unfold GenerateComplianceEmail
    rw [if_neg (by simp [h1, h2, h3])]
    exact hpanic

/-- C10 witness: the per-project step records nil in both snapshot maps on
failed fetches; the nil approval snapshot panics the report and the
configured email under a mandatory approval setting, and the nil
project-settings snapshot panics the report under a mandatory project
setting. -/
theorem claim10_witness :
    mapLookup (compliancePerProject renvFail ManagerState.initial false
      p1).1.approvalSettingsOriginal "g/one" = none ∧
    mapLookup (compliancePerProject renvFail ManagerState.initial false
      p1).1.projectSettingsOriginal "g/one" = none ∧
    GenerateComplianceReport fenvW comp10 st10 = .panics ∧
    GenerateComplianceEmail fenvW comp10 st10 = .panics ∧
    GenerateComplianceReport fenvW comp10p st10p = .panics ∧
    GenerateComplianceEmail fenvW comp10p st10p = .panics := by
  have hA := claim10_nil_snapshot_panics renvFail fenvW comp10 st10
    ManagerState.initial "g/one" false p1 (by decide) (Or.inl ⟨by decide, by decide⟩)
  have hP := claim10_nil_snapshot_panics renvFail fenvW comp10p st10p
    ManagerState.initial "g/one" false p1 (by decide) (Or.inr ⟨by decide, by decide⟩)
  exact ⟨hA.1 "fetch failed" rfl, hA.2.1 "fetch failed" rfl, hA.2.2.1,
    hA.2.2.2 (by decide) (by decide) (by decide), hP.2.2.1,
    hP.2.2.2 (by decide) (by decide) (by decide)⟩

end GitlabEnforcer
